import Mathlib

/-!
Verification development for the replay execution core of the optimus
repository (`core/scheduler/service/replay_worker.go`) and the executor
input compiler that its test `executor_input_compiler_test.go` exercises.

The replay worker source is embedded function by function.  Helper
operations of the `scheduler` package (`JobRunStatusList.ToRunStatusMap`,
`MergeWithUpdatedRuns`, `GetSortedRunsByStates`,
`ReplayWithRun.GetFirstExecutableRun` / `GetLastExecutableRun`,
`JobRunStatus.GetLogicalTime`) and the executor input compiler itself are
not part of the sources at hand; those definitions are modelled from the
specification (each such definition carries a doc comment saying so).
-/

namespace Optimus

/-- Model of Go `time.Time` as used by the replay worker: an absolute
instant together with a location tag (`loc = 0` stands for UTC).  Go map
keys of type `time.Time` compare wall clock and location, which the pair
captures; `UTC()` rewrites the location to UTC keeping the instant. -/
structure GoTime where
  instant : Int
  loc : Nat
deriving DecidableEq

/-- Go `Time.UTC()`: same instant, location forced to UTC. -/
def GoTime.toUTC (t : GoTime) : GoTime := ⟨t.instant, 0⟩

@[simp] theorem GoTime.toUTC_instant (t : GoTime) : t.toUTC.instant = t.instant := rfl

@[simp] theorem GoTime.toUTC_loc (t : GoTime) : t.toUTC.loc = 0 := rfl

theorem GoTime.toUTC_of_utc (t : GoTime) (h : t.loc = 0) : t.toUTC = t := by
  cases t with
  | mk i l => cases h; rfl

/-- The run states of `scheduler.State` that the worker consults.  `running`
and `queued` stand for the scheduler-reported non-terminal states that the
merge step ignores. -/
inductive RunState where
  | pending
  | inProgress
  | success
  | failed
  | running
  | queued
  | missing
deriving DecidableEq

/-- `scheduler.ReplayState`. -/
inductive ReplayState where
  | created
  | partialReplayed
  | replayed
  | success
  | failed
deriving DecidableEq

/-- Terminal replay states per the data model: `success` and `failed`. -/
def ReplayState.isTerminal : ReplayState → Bool
  | .success => true
  | .failed => true
  | _ => false

/-- `scheduler.JobRunStatus` restricted to the fields the worker reads:
the scheduled time and the run state. -/
structure JobRunStatus where
  scheduledAt : GoTime
  state : RunState
deriving DecidableEq

/-- Modelled from the spec: a cron schedule, exposed only through the
previous-schedule-point function.  `JobRunStatus.GetLogicalTime(jobCron)`
maps a run's `scheduledAt` to its logical time ("the nominal execution
time of a scheduled run"), the previous cron point of `scheduledAt`. -/
structure CronSchedule where
  prev : Int → Int

/-- Modelled from the spec: `JobRunStatus.GetLogicalTime(jobCron)`, the
logical time of a run (glossary: logical time is the nominal execution
time, computed from the cron spec and the run's `scheduledAt`). -/
def JobRunStatus.getLogicalTime (r : JobRunStatus) (cron : CronSchedule) : Int :=
  cron.prev r.scheduledAt.instant

/-! ### Go maps keyed by time

A Go `map[time.Time]State` is modelled as an association list where
insertion conses the new binding in front, so that lookup (first match)
sees the latest binding exactly as an overwriting map assignment would. -/

/-- Lookup in a time-keyed map (first binding wins, i.e. the most recently
inserted one). -/
def lookupT : List (GoTime × RunState) → GoTime → Option RunState
  | [], _ => none
  | (k, v) :: rest, t => if t = k then some v else lookupT rest t

@[simp] theorem lookupT_nil (t : GoTime) : lookupT [] t = none := rfl

theorem lookupT_cons (k : GoTime) (v : RunState) (m : List (GoTime × RunState)) (t : GoTime) :
    lookupT ((k, v) :: m) t = if t = k then some v else lookupT m t := rfl

theorem lookupT_append (a b : List (GoTime × RunState)) (t : GoTime) :
    lookupT (a ++ b) t = match lookupT a t with
      | some v => some v
      | none => lookupT b t := by
  induction a with
  | nil => simp [lookupT]
  | cons kv rest ih =>
    cases kv with
    | mk k v =>
      by_cases h : t = k
      · simp [lookupT, h]
      · simp [lookupT, h, ih]

/-- A fold that inserts one binding list per element in front of the
accumulator factors through the empty accumulator.  Both Go loops that
populate a map (`ToRunStatusMap` and `identifyUpdatedRunStatus`) have this
shape. -/
theorem foldl_consStep {α β : Type} (step : List β → α → List β)
    (h : ∀ m r, step m r = step [] r ++ m) (l : List α) :
    ∀ acc, List.foldl step acc l = List.foldl step [] l ++ acc := by
  induction l with
  | nil => intro acc; simp
  | cons r rest ih =>
    intro acc
    show List.foldl step (step acc r) rest = List.foldl step (step [] r) rest ++ acc
    rw [ih (step acc r), ih (step [] r), h acc r, List.append_assoc]

/-- Modelled from the spec: `JobRunStatusList.ToRunStatusMap`, the map from
`scheduledAt` (always converted to UTC when used as a map key) to run
state, built by iterating the list and overwriting on duplicate keys. -/
def toRunStatusMap (runs : List JobRunStatus) : List (GoTime × RunState) :=
  runs.foldl (fun m r => (r.scheduledAt.toUTC, r.state) :: m) []

theorem toRunStatusMap_cons (r : JobRunStatus) (runs : List JobRunStatus) :
    toRunStatusMap (r :: runs) = toRunStatusMap runs ++ [(r.scheduledAt.toUTC, r.state)] := by
  show List.foldl _ ((r.scheduledAt.toUTC, r.state) :: []) runs = _
  exact foldl_consStep _ (fun m r => rfl) runs _

theorem lookupT_toRunStatusMap_eq_none (runs : List JobRunStatus) (t : GoTime) :
    lookupT (toRunStatusMap runs) t = none ↔ ∀ r ∈ runs, r.scheduledAt.toUTC ≠ t := by
  induction runs with
  | nil => simp [toRunStatusMap]
  | cons r rest ih =>
    rw [toRunStatusMap_cons, lookupT_append]
    constructor
    · intro h q hq
      rcases List.mem_cons.mp hq with hq | hq
      · subst hq
        intro ht
        rcases hcase : lookupT (toRunStatusMap rest) t with _ | v
        · rw [hcase] at h
          simp only [lookupT, ht, if_pos rfl] at h
          exact absurd h (by simp)
        · rw [hcase] at h; exact absurd h (by simp)
      · rcases hcase : lookupT (toRunStatusMap rest) t with _ | v
        · exact (ih.mp hcase) q hq
        · rw [hcase] at h; exact absurd h (by simp)
    · intro h
      have hrest : lookupT (toRunStatusMap rest) t = none :=
        ih.mpr (fun q hq => h q (List.mem_cons_of_mem _ hq))
      rw [hrest]
      have hne : t ≠ r.scheduledAt.toUTC := fun ht => h r (List.mem_cons_self r rest) ht.symm
      simp [lookupT, hne]

theorem lookupT_toRunStatusMap_eq_some (runs : List JobRunStatus) (t : GoTime) (v : RunState) :
    lookupT (toRunStatusMap runs) t = some v →
    ∃ r ∈ runs, r.scheduledAt.toUTC = t ∧ r.state = v := by
  induction runs with
  | nil => simp [toRunStatusMap]
  | cons r rest ih =>
    rw [toRunStatusMap_cons, lookupT_append]
    rcases hcase : lookupT (toRunStatusMap rest) t with _ | w
    · intro h
      by_cases ht : t = r.scheduledAt.toUTC
      · simp only [lookupT, ht, if_pos, Option.some.injEq] at h
        exact ⟨r, List.mem_cons_self r rest, ht.symm, h⟩
      · simp [lookupT, ht] at h
    · intro h
      simp only [Option.some.injEq] at h
      subst h
      obtain ⟨q, hq, hqt, hqv⟩ := ih hcase
      exact ⟨q, List.mem_cons_of_mem _ hq, hqt, hqv⟩

/-! ### identifyUpdatedRunStatus (replay_worker.go, lines 259-272)

The Go loop walks the existing runs; for each run still `inProgress` whose
observed state (keyed by `scheduledAt.UTC()`) is `success` or `failed` it
overwrites the map entry for that UTC time with the observed state. -/

/-- The body of the `identifyUpdatedRunStatus` loop, folded over the
existing runs with the observed-state map `obs` already built. -/
def identAux (obs : List (GoTime × RunState)) (existing : List JobRunStatus) :
    List (GoTime × RunState) :=
  existing.foldl (fun m r =>
    if r.state = RunState.inProgress then
      match lookupT obs r.scheduledAt.toUTC with
      | some RunState.success => (r.scheduledAt.toUTC, RunState.success) :: m
      | some RunState.failed => (r.scheduledAt.toUTC, RunState.failed) :: m
      | _ => m
    else m) []

/-- `identifyUpdatedRunStatus(existingJobRuns, incomingJobRuns)` from
`replay_worker.go`: build the observed map, then collect the observed
`success`/`failed` states of the still-`inProgress` existing runs. -/
def identifyUpdatedRunStatus (existing incoming : List JobRunStatus) :
    List (GoTime × RunState) :=
  identAux (toRunStatusMap incoming) existing

/-- The single-run contribution of the `identifyUpdatedRunStatus` loop. -/
def identEntry (obs : List (GoTime × RunState)) (r : JobRunStatus) :
    List (GoTime × RunState) :=
  if r.state = RunState.inProgress then
    match lookupT obs r.scheduledAt.toUTC with
    | some RunState.success => [(r.scheduledAt.toUTC, RunState.success)]
    | some RunState.failed => [(r.scheduledAt.toUTC, RunState.failed)]
    | _ => []
  else []

theorem identAux_cons (obs : List (GoTime × RunState)) (r : JobRunStatus)
    (rest : List JobRunStatus) :
    identAux obs (r :: rest) = identAux obs rest ++ identEntry obs r := by
  have hstep : ∀ (m : List (GoTime × RunState)) (q : JobRunStatus),
      (if q.state = RunState.inProgress then
        match lookupT obs q.scheduledAt.toUTC with
        | some RunState.success => (q.scheduledAt.toUTC, RunState.success) :: m
        | some RunState.failed => (q.scheduledAt.toUTC, RunState.failed) :: m
        | _ => m
      else m) =
      (if q.state = RunState.inProgress then
        match lookupT obs q.scheduledAt.toUTC with
        | some RunState.success => (q.scheduledAt.toUTC, RunState.success) :: []
        | some RunState.failed => (q.scheduledAt.toUTC, RunState.failed) :: []
        | _ => ([] : List (GoTime × RunState))
      else []) ++ m := by
    intro m q
    by_cases hq : q.state = RunState.inProgress
    · rcases hv : lookupT obs q.scheduledAt.toUTC with _ | v
      · simp [hq, hv]
      · cases v <;> simp [hq, hv]
    · simp [hq]
  show List.foldl _ _ (r :: rest) = _
  rw [List.foldl_cons]
  rw [foldl_consStep _ hstep rest]
  have hentry : ∀ (q : JobRunStatus),
      (if q.state = RunState.inProgress then
        match lookupT obs q.scheduledAt.toUTC with
        | some RunState.success => (q.scheduledAt.toUTC, RunState.success) :: ([] : List (GoTime × RunState))
        | some RunState.failed => (q.scheduledAt.toUTC, RunState.failed) :: []
        | _ => ([] : List (GoTime × RunState))
      else []) = identEntry obs q := by
    intro q
    by_cases hq : q.state = RunState.inProgress
    · rcases hv : lookupT obs q.scheduledAt.toUTC with _ | v
      · simp [identEntry, hq, hv]
      · cases v <;> simp [identEntry, hq, hv]
    · simp [identEntry, hq]
  rw [hentry r]
  rfl

/-- Lookup in the single-run contribution of the loop. -/
theorem lookupT_identEntry (obs : List (GoTime × RunState)) (r : JobRunStatus)
    (t : GoTime) (v : RunState) :
    lookupT (identEntry obs r) t = some v ↔
      r.state = RunState.inProgress ∧ r.scheduledAt.toUTC = t ∧
      lookupT obs t = some v ∧ (v = RunState.success ∨ v = RunState.failed) := by
  unfold identEntry
  by_cases hq : r.state = RunState.inProgress
  · rcases hv : lookupT obs r.scheduledAt.toUTC with _ | w
    · simp only [hq, if_pos]
      constructor
      · intro h; simp [lookupT] at h
      · rintro ⟨-, ht, hobs, -⟩
        rw [← ht, hv] at hobs
        exact absurd hobs (by simp)
    · by_cases ht : t = r.scheduledAt.toUTC
      · subst ht
        cases w <;> simp_all [lookupT_cons] <;> aesop
      · have hne : r.scheduledAt.toUTC ≠ t := fun h => ht h.symm
        cases w <;> simp_all [lookupT_cons]
  · simp [hq, lookupT]

/-- Complete characterisation of the update map returned by
`identifyUpdatedRunStatus` via `identAux`: a binding `t ↦ v` is present
exactly when `v` is the observed state at `t`, `v` is `success` or
`failed`, and some existing run in state `inProgress` has UTC scheduled
time `t`. -/
theorem lookupT_identAux (obs : List (GoTime × RunState))
    (existing : List JobRunStatus) (t : GoTime) (v : RunState) :
    lookupT (identAux obs existing) t = some v ↔
      (v = RunState.success ∨ v = RunState.failed) ∧
      lookupT obs t = some v ∧
      ∃ r ∈ existing, r.state = RunState.inProgress ∧ r.scheduledAt.toUTC = t := by
  induction existing generalizing v with
  | nil => simp [identAux, lookupT]
  | cons r rest ih =>
    rw [identAux_cons, lookupT_append]
    constructor
    · intro h
      rcases hcase : lookupT (identAux obs rest) t with _ | w
      · rw [hcase] at h
        obtain ⟨h1, h2, h3, h4⟩ := (lookupT_identEntry obs r t v).mp h
        exact ⟨h4, h3, r, List.mem_cons_self r rest, h1, h2⟩
      · rw [hcase] at h
        simp only [Option.some.injEq] at h
        subst h
        obtain ⟨hsf, hobs, q, hq, hqs, hqt⟩ := (ih w).mp hcase
        exact ⟨hsf, hobs, q, List.mem_cons_of_mem _ hq, hqs, hqt⟩
    · rintro ⟨hsf, hobs, q, hq, hqs, hqt⟩
      rcases hcase : lookupT (identAux obs rest) t with _ | w
      · rcases List.mem_cons.mp hq with hq' | hq'
        · subst hq'
          exact (lookupT_identEntry obs q t v).mpr ⟨hqs, hqt, hobs, hsf⟩
        · exact absurd ((ih v).mpr ⟨hsf, hobs, q, hq', hqs, hqt⟩) (by rw [hcase]; simp)
      · have hch := (ih w).mp hcase
        rw [hch.2.1] at hobs
        injection hobs with hwv
        subst hwv
        rfl

/-- Characterisation of `identifyUpdatedRunStatus` itself, with the
observed state expressed through the observed runs. -/
theorem lookupT_identifyUpdatedRunStatus (existing incoming : List JobRunStatus)
    (t : GoTime) (v : RunState) :
    lookupT (identifyUpdatedRunStatus existing incoming) t = some v ↔
      (v = RunState.success ∨ v = RunState.failed) ∧
      lookupT (toRunStatusMap incoming) t = some v ∧
      ∃ r ∈ existing, r.state = RunState.inProgress ∧ r.scheduledAt.toUTC = t :=
  lookupT_identAux (toRunStatusMap incoming) existing t v

/-- If no `inProgress` run of `existing` has an observed `success`/`failed`
state, the update map is empty. -/
theorem identAux_eq_nil (obs : List (GoTime × RunState)) (existing : List JobRunStatus)
    (h : ∀ r ∈ existing, r.state = RunState.inProgress →
      lookupT obs r.scheduledAt.toUTC ≠ some RunState.success ∧
      lookupT obs r.scheduledAt.toUTC ≠ some RunState.failed) :
    identAux obs existing = [] := by
  induction existing with
  | nil => rfl
  | cons r rest ih =>
    rw [identAux_cons]
    have hrest : identAux obs rest = [] :=
      ih (fun q hq => h q (List.mem_cons_of_mem _ hq))
    rw [hrest]
    unfold identEntry
    by_cases hq : r.state = RunState.inProgress
    · obtain ⟨h1, h2⟩ := h r (List.mem_cons_self r rest) hq
      rcases hv : lookupT obs r.scheduledAt.toUTC with _ | w
      · simp [hq, hv]
      · cases w <;> simp_all
    · simp [hq]

/-! ### JobRunStatusList helpers (modelled from the spec) -/

/-- Modelled from the spec: `JobRunStatusList.MergeWithUpdatedRuns` —
"merge observed `success`/`failed` over the existing `inProgress`
entries": each run whose UTC scheduled time has a binding in the update
map gets that binding's state, every other run is kept unchanged. -/
def mergeWithUpdatedRuns (runs : List JobRunStatus) (m : List (GoTime × RunState)) :
    List JobRunStatus :=
  runs.map (fun r =>
    match lookupT m r.scheduledAt.toUTC with
    | some v => { r with state := v }
    | none => r)

@[simp] theorem mergeWithUpdatedRuns_nil (runs : List JobRunStatus) :
    mergeWithUpdatedRuns runs [] = runs := by
  unfold mergeWithUpdatedRuns
  simp [lookupT]

/-- Insertion into a list kept sorted by `scheduledAt` ascending (ties keep
insertion order, as the spec prescribes). -/
def insertByTime (r : JobRunStatus) : List JobRunStatus → List JobRunStatus
  | [] => [r]
  | x :: xs =>
      if r.scheduledAt.instant < x.scheduledAt.instant then r :: x :: xs
      else x :: insertByTime r xs

/-- Sorting by `scheduledAt` ascending ("both orderings are strictly by
`scheduledAt` ascending"). -/
def sortRunsByTime (l : List JobRunStatus) : List JobRunStatus :=
  l.foldr insertByTime []

/-- Strictly increasing `scheduledAt` order; cron-expected run vectors are
strictly increasing by construction. -/
def StrictByTime (l : List JobRunStatus) : Prop :=
  List.Pairwise (fun a b => a.scheduledAt.instant < b.scheduledAt.instant) l

theorem sortRunsByTime_of_sorted (l : List JobRunStatus) (h : StrictByTime l) :
    sortRunsByTime l = l := by
  induction l with
  | nil => rfl
  | cons r rest ih =>
    have hrest : StrictByTime rest := (List.pairwise_cons.mp h).2
    show insertByTime r (sortRunsByTime rest) = r :: rest
    rw [ih hrest]
    cases rest with
    | nil => rfl
    | cons x xs =>
      have hlt : r.scheduledAt.instant < x.scheduledAt.instant :=
        (List.pairwise_cons.mp h).1 x (List.mem_cons_self x xs)
      unfold insertByTime
      rw [if_pos hlt]

theorem length_insertByTime (r : JobRunStatus) (l : List JobRunStatus) :
    (insertByTime r l).length = l.length + 1 := by
  induction l with
  | nil => rfl
  | cons x xs ih =>
    unfold insertByTime
    by_cases hlt : r.scheduledAt.instant < x.scheduledAt.instant
    · simp [hlt]
    · simp [hlt, ih]

theorem length_sortRunsByTime (l : List JobRunStatus) :
    (sortRunsByTime l).length = l.length := by
  induction l with
  | nil => rfl
  | cons r rest ih =>
    show (insertByTime r (sortRunsByTime rest)).length = rest.length + 1
    rw [length_insertByTime, ih]

theorem mem_insertByTime (r q : JobRunStatus) (l : List JobRunStatus) :
    q ∈ insertByTime r l ↔ q = r ∨ q ∈ l := by
  induction l with
  | nil => simp [insertByTime]
  | cons x xs ih =>
    unfold insertByTime
    by_cases hlt : r.scheduledAt.instant < x.scheduledAt.instant
    · rw [if_pos hlt]
      simp only [List.mem_cons]
    · rw [if_neg hlt]
      simp only [List.mem_cons, ih]
      tauto

theorem mem_sortRunsByTime (q : JobRunStatus) (l : List JobRunStatus) :
    q ∈ sortRunsByTime l ↔ q ∈ l := by
  induction l with
  | nil => simp [sortRunsByTime]
  | cons r rest ih =>
    show q ∈ insertByTime r (sortRunsByTime rest) ↔ _
    rw [mem_insertByTime, ih]
    simp only [List.mem_cons]

/-- Modelled from the spec: `JobRunStatusList.GetSortedRunsByStates` —
the runs whose state is in the given set, sorted by `scheduledAt`
ascending. -/
def getSortedRunsByStates (runs : List JobRunStatus) (states : List RunState) :
    List JobRunStatus :=
  sortRunsByTime (runs.filter (fun r => states.contains r.state))

theorem length_getSortedRunsByStates (runs : List JobRunStatus) (states : List RunState) :
    (getSortedRunsByStates runs states).length =
      (runs.filter (fun r => states.contains r.state)).length := by
  unfold getSortedRunsByStates
  exact length_sortRunsByTime _

theorem mem_getSortedRunsByStates (q : JobRunStatus) (runs : List JobRunStatus)
    (states : List RunState) :
    q ∈ getSortedRunsByStates runs states ↔
      q ∈ runs ∧ states.contains q.state = true := by
  unfold getSortedRunsByStates
  rw [mem_sortRunsByTime, List.mem_filter]

theorem getSortedRunsByStates_singleton_length (runs : List JobRunStatus) (s : RunState) :
    (getSortedRunsByStates runs [s]).length =
      (runs.filter (fun r => r.state = s)).length := by
  rw [length_getSortedRunsByStates]
  congr 1
  apply List.filter_congr
  intro r _
  simp [List.contains, eq_comm]

/-- Modelled from the spec: `ReplayWithRun.GetFirstExecutableRun` — the
first (earliest `scheduledAt`) run whose state is `pending`, if any. -/
def getFirstExecutableRun (runs : List JobRunStatus) : Option JobRunStatus :=
  (getSortedRunsByStates runs [RunState.pending]).head?

/-- Modelled from the spec: `ReplayWithRun.GetLastExecutableRun` — the
last (latest `scheduledAt`) run whose state is `pending`, if any. -/
def getLastExecutableRun (runs : List JobRunStatus) : Option JobRunStatus :=
  (getSortedRunsByStates runs [RunState.pending]).getLast?

/-- `getMissingRuns(expectedRuns, existingRuns)` from `replay_worker.go`:
the expected runs whose `ScheduledAt` — looked up as-is, while the
existing-run map is keyed by `ScheduledAt.UTC()` — has no entry in the
existing-run map. -/
def getMissingRuns (expectedRuns existingRuns : List JobRunStatus) : List JobRunStatus :=
  expectedRuns.filter (fun r => (lookupT (toRunStatusMap existingRuns) r.scheduledAt).isNone)

theorem mem_getMissingRuns (r : JobRunStatus) (expectedRuns existingRuns : List JobRunStatus) :
    r ∈ getMissingRuns expectedRuns existingRuns ↔
      r ∈ expectedRuns ∧ ∀ o ∈ existingRuns, o.scheduledAt.toUTC ≠ r.scheduledAt := by
  unfold getMissingRuns
  rw [List.mem_filter]
  constructor
  · rintro ⟨h1, h2⟩
    refine ⟨h1, ?_⟩
    rw [← lookupT_toRunStatusMap_eq_none]
    simpa [Option.isNone_iff_eq_none] using h2
  · rintro ⟨h1, h2⟩
    refine ⟨h1, ?_⟩
    rw [← lookupT_toRunStatusMap_eq_none] at h2
    simp [Option.isNone_iff_eq_none, h2]

/-! ### The replay worker tick (`ReplayWorker.Process` and its arms)

A worker invocation reads from the job repository (the cron spec), the
scheduler (run listings) and issues scheduler mutations and repository
writes.  The environment packages the responses of those collaborators;
scheduler mutations are recorded as actions, repository writes as
`RepoWrite`s and applied to the stored record. -/

/-- The persisted part of a replay that the worker reads and writes:
state, per-run status vector and message. -/
structure ReplayRecord where
  state : ReplayState
  runs : List JobRunStatus
  message : String
deriving DecidableEq

/-- The replay configuration bit the worker consults
(`Replay.Config().Parallel`). -/
structure ReplayConf where
  parallel : Bool
deriving DecidableEq

/-- A scheduler mutation issued by the worker.  `createRun` records the
DAG-run-id tag (`"replayed"` for worker-created runs). -/
inductive SchedAction where
  | clear (logicalTime : Int)
  | clearBatch (startLogical endLogical : Int)
  | createRun (logicalTime : Int) (runIdTag : String)
deriving DecidableEq

/-- A repository write.  `updateReplay` persists state, run vector and
message together; `updateReplayStatus` persists only state and message. -/
inductive RepoWrite where
  | updateReplay (state : ReplayState) (runs : List JobRunStatus) (message : String)
  | updateReplayStatus (state : ReplayState) (message : String)
deriving DecidableEq

/-- Effect of a repository write on the stored record:
`UpdateReplay(id, state, runs, message)` replaces all three fields;
`UpdateReplayStatus(id, state, message)` leaves the run vector as it was. -/
def applyWrite (rec : ReplayRecord) : RepoWrite → ReplayRecord
  | .updateReplay st runs msg => { state := st, runs := runs, message := msg }
  | .updateReplayStatus st msg => { rec with state := st, message := msg }

/-- Responses of the worker's collaborators during one tick:
`cron` is the job repository's cron spec lookup, `fetchRange` the
scheduler's `GetJobRuns` over the replay window, `fetchAt t` the
scheduler's `GetJobRuns` with `startDate = endDate = t`, and the
remaining fields give the error (if any) of each scheduler mutation and
of the repository's `UpdateReplay`. -/
structure WorkerEnv where
  cron : Except String CronSchedule
  fetchRange : Except String (List JobRunStatus)
  fetchAt : GoTime → Except String (List JobRunStatus)
  clearErr : Int → Option String
  clearBatchErr : Int → Int → Option String
  createErr : Int → Option String
  updateReplayErr : Option String

/-- `replayRunOnScheduler` (replay_worker.go, lines 207-226): fetch the
single run; when the scheduler reports nothing (`notFound`) create the
run with the `"replayed"` tag, otherwise clear it. -/
def replayRunOnScheduler (env : WorkerEnv) (cron : CronSchedule) (run : JobRunStatus) :
    Except String (List SchedAction) :=
  let lt := run.getLogicalTime cron
  match env.fetchAt run.scheduledAt with
  | .error e => .error e
  | .ok [] =>
      match env.createErr lt with
      | some e => .error e
      | none => .ok [SchedAction.createRun lt "replayed"]
  | .ok (_ :: _) =>
      match env.clearErr lt with
      | some e => .error e
      | none => .ok [SchedAction.clear lt]

/-- The message of a multi-error with the given scope, as produced by
`errors.NewMultiError` in `createMissingRuns`. -/
def multiErrorMessage (scope : String) (errs : List String) : String :=
  scope ++ ": " ++ String.intercalate "; " errs

/-- `createMissingRuns` (replay_worker.go, lines 78-97): fetch the runs in
the replay window, compute the expected runs missing from them, and issue
`CreateRun` for each with the `"replayed"` tag; individual creation
errors are accumulated into a multi-error. -/
def createMissingRuns (env : WorkerEnv) (cron : CronSchedule)
    (expectedRuns : List JobRunStatus) : Except String (List SchedAction) :=
  match env.fetchRange with
  | .error e => .error e
  | .ok existedRuns =>
    let runsToBeCreated := getMissingRuns expectedRuns existedRuns
    let errs := runsToBeCreated.filterMap (fun r => env.createErr (r.getLogicalTime cron))
    if errs.isEmpty then
      .ok (runsToBeCreated.map (fun r =>
        SchedAction.createRun (r.getLogicalTime cron) "replayed"))
    else
      .error (multiErrorMessage "create runs" errs)

/-- `processNewReplayRequestParallel` (replay_worker.go, lines 134-153):
`ClearBatch` over the logical times of the first and last executable
runs, then create the missing runs, then report every stored run as
`inProgress`.  (The Go code dereferences `GetFirstExecutableRun()`
without a nil check, so a replay without a pending run would panic;
that branch is represented as an error here.) -/
def processNewReplayRequestParallel (env : WorkerEnv) (cron : CronSchedule)
    (runs : List JobRunStatus) : Except String (List SchedAction × List JobRunStatus) :=
  match getFirstExecutableRun runs, getLastExecutableRun runs with
  | some firstRun, some lastRun =>
    let startLogical := firstRun.getLogicalTime cron
    let endLogical := lastRun.getLogicalTime cron
    match env.clearBatchErr startLogical endLogical with
    | some e => .error e
    | none =>
      match createMissingRuns env cron runs with
      | .error e => .error e
      | .ok acts =>
        .ok (SchedAction.clearBatch startLogical endLogical :: acts,
             runs.map (fun r => { scheduledAt := r.scheduledAt, state := RunState.inProgress }))
  | _, _ => .error "nil executable run"

/-- `processNewReplayRequestSequential` (replay_worker.go, lines 155-168):
dispatch the first pending run via `replayRunOnScheduler` and mark
exactly its scheduled time `inProgress` in the run vector (the update map
is keyed by the raw `ScheduledAt` of the dispatched run). -/
def processNewReplayRequestSequential (env : WorkerEnv) (cron : CronSchedule)
    (runs : List JobRunStatus) : Except String (List SchedAction × List JobRunStatus) :=
  match getFirstExecutableRun runs with
  | none => .ok ([], runs)
  | some runToReplay =>
    match replayRunOnScheduler env cron runToReplay with
    | .error e => .error e
    | .ok acts =>
      .ok (acts, mergeWithUpdatedRuns runs [(runToReplay.scheduledAt, RunState.inProgress)])

/-- `processNewReplayRequest` (replay_worker.go, lines 110-132): the new
state is `replayed`, except for a sequential replay with more than one
run, which goes to `partialReplayed`; the run vector comes from the
parallel or sequential arm. -/
def processNewReplayRequest (env : WorkerEnv) (cron : CronSchedule) (conf : ReplayConf)
    (runs : List JobRunStatus) :
    Except String (ReplayState × List SchedAction × List JobRunStatus) :=
  let state := if !conf.parallel && runs.length > 1 then ReplayState.partialReplayed
               else ReplayState.replayed
  match (if conf.parallel then processNewReplayRequestParallel env cron runs
         else processNewReplayRequestSequential env cron runs) with
  | .error e => .error e
  | .ok (acts, updatedRuns) => .ok (state, acts, updatedRuns)

/-- `processPartialReplayedRequest` (replay_worker.go, lines 170-205):
merge the observed states over the stored runs; when no run remains
`inProgress` and some are still `pending`, dispatch the earliest pending
run and mark it `inProgress`; the new state is `replayed` when no run
remains `pending`, else `partialReplayed`. -/
def processPartialReplayedRequest (env : WorkerEnv) (cron : CronSchedule)
    (runs : List JobRunStatus) :
    Except String (ReplayState × List SchedAction × List JobRunStatus) :=
  match env.fetchRange with
  | .error e => .error e
  | .ok incomingRuns =>
    let updatedReplayMap := identifyUpdatedRunStatus runs incomingRuns
    let updatedRuns := mergeWithUpdatedRuns runs updatedReplayMap
    let replayedRuns := getSortedRunsByStates updatedRuns [RunState.inProgress]
    let toBeReplayedRuns := getSortedRunsByStates updatedRuns [RunState.pending]
    let dispatched : Except String (List SchedAction × List JobRunStatus) :=
      if replayedRuns.length = 0 ∧ toBeReplayedRuns.length > 0 then
        match toBeReplayedRuns.head? with
        | some runToReplay =>
          match replayRunOnScheduler env cron runToReplay with
          | .error e => .error e
          | .ok acts =>
            .ok (acts, mergeWithUpdatedRuns updatedRuns
              ((runToReplay.scheduledAt, RunState.inProgress) :: updatedReplayMap))
        | none => .ok ([], updatedRuns)
      else .ok ([], updatedRuns)
    match dispatched with
    | .error e => .error e
    | .ok (acts, updatedRuns2) =>
      let pendingRuns := getSortedRunsByStates updatedRuns2 [RunState.pending]
      let replayState := if pendingRuns.length = 0 then ReplayState.replayed
                         else ReplayState.partialReplayed
      .ok (replayState, acts, updatedRuns2)

/-- The message the worker persists when a replay fails with `n` failed
runs (`fmt.Sprintf("found %d failed runs.", n)`). -/
def foundFailedRunsMessage (n : Nat) : String :=
  "found " ++ toString n ++ " failed runs."

/-- `processReplayedRequest` (replay_worker.go, lines 228-257): merge the
observed states over the stored runs; `success` when no merged run is
`inProgress` or `failed`; `failed` with the failed-run count message when
none is `inProgress` and at least one is `failed`; otherwise stay
`replayed`. -/
def processReplayedRequest (env : WorkerEnv) (runs : List JobRunStatus) :
    Except String (ReplayState × List JobRunStatus × String) :=
  match env.fetchRange with
  | .error e => .error e
  | .ok incomingRuns =>
    let updatedRuns := mergeWithUpdatedRuns runs (identifyUpdatedRunStatus runs incomingRuns)
    let inProgressRuns := getSortedRunsByStates updatedRuns [RunState.inProgress]
    let failedRuns := getSortedRunsByStates updatedRuns [RunState.failed]
    if inProgressRuns.length = 0 ∧ failedRuns.length = 0 then
      .ok (ReplayState.success, updatedRuns, "")
    else if inProgressRuns.length = 0 ∧ failedRuns.length > 0 then
      .ok (ReplayState.failed, updatedRuns, foundFailedRunsMessage failedRuns.length)
    else
      .ok (ReplayState.replayed, updatedRuns, "")

/-- The outcome of one worker invocation: scheduler actions issued on the
happy path, repository writes performed, the error the tick hit (if
any), and the resulting persisted record. -/
structure TickOutcome where
  actions : List SchedAction
  writes : List RepoWrite
  tickErr : Option String
  record : ReplayRecord
deriving DecidableEq

/-- The failure outcome: `Process` calls `updateReplayAsFailed`
(replay_worker.go, lines 299-303), which persists only state `failed`
and the error message via `UpdateReplayStatus`. -/
def failOutcome (rec : ReplayRecord) (e : String) : TickOutcome :=
  { actions := []
    writes := [RepoWrite.updateReplayStatus ReplayState.failed e]
    tickErr := some e
    record := applyWrite rec (RepoWrite.updateReplayStatus ReplayState.failed e) }

/-- `ReplayWorker.Process` (replay_worker.go, lines 50-76) as one tick:
resolve the cron spec (failure marks the replay failed); switch on the
current state (`created`, `partialReplayed`, `replayed`; terminal states
have no arm and write nothing); persist the computed state and run
vector via `UpdateReplay`; on any error persist state `failed` with the
error message via `UpdateReplayStatus`. -/
def processTick (env : WorkerEnv) (conf : ReplayConf) (rec : ReplayRecord) : TickOutcome :=
  match env.cron with
  | .error e => failOutcome rec e
  | .ok cron =>
    let armResult : Except String (Option (ReplayState × List SchedAction × List JobRunStatus × String)) :=
      match rec.state with
      | ReplayState.created =>
        match processNewReplayRequest env cron conf rec.runs with
        | .error e => .error e
        | .ok (st, acts, updatedRuns) => .ok (some (st, acts, updatedRuns, ""))
      | ReplayState.partialReplayed =>
        match processPartialReplayedRequest env cron rec.runs with
        | .error e => .error e
        | .ok (st, acts, updatedRuns) => .ok (some (st, acts, updatedRuns, ""))
      | ReplayState.replayed =>
        match processReplayedRequest env rec.runs with
        | .error e => .error e
        | .ok (st, updatedRuns, msg) => .ok (some (st, [], updatedRuns, msg))
      | _ => .ok none
    match armResult with
    | .error e => failOutcome rec e
    | .ok none => { actions := [], writes := [], tickErr := none, record := rec }
    | .ok (some (st, acts, updatedRuns, msg)) =>
      match env.updateReplayErr with
      | some e => { (failOutcome rec e) with actions := acts }
      | none =>
        let w := RepoWrite.updateReplay st updatedRuns msg
        { actions := acts, writes := [w], tickErr := none, record := applyWrite rec w }

/-- An environment in which every collaborator call succeeds, the window
fetch observing the given runs and the single-run fetch observing
`fetchAt`. -/
def happyEnv (cron : CronSchedule) (observed : List JobRunStatus)
    (fetchAt : GoTime → List JobRunStatus) : WorkerEnv :=
  { cron := .ok cron
    fetchRange := .ok observed
    fetchAt := fun t => .ok (fetchAt t)
    clearErr := fun _ => none
    clearBatchErr := fun _ _ => none
    createErr := fun _ => none
    updateReplayErr := none }

/-! ### The replay executor dispatcher (modelled from the spec) -/

/-- Modelled from the spec: the replay executor dispatcher selects the
oldest replay in a non-terminal state ("each iteration fetches the oldest
replay in a non-terminal state not yet assigned to an in-flight worker"):
the index of the first non-terminal record, if any. -/
def dispatcherSelect : List ReplayRecord → Option Nat
  | [] => none
  | r :: rest =>
      if r.state.isTerminal then (dispatcherSelect rest).map (· + 1) else some 0

theorem dispatcherSelect_spec (replays : List ReplayRecord) (i : Nat)
    (h : dispatcherSelect replays = some i) :
    ∃ r, replays.get? i = some r ∧ r.state.isTerminal = false := by
  induction replays generalizing i with
  | nil => simp [dispatcherSelect] at h
  | cons r rest ih =>
    unfold dispatcherSelect at h
    by_cases ht : r.state.isTerminal
    · rw [if_pos ht] at h
      rcases hsel : dispatcherSelect rest with _ | j
      · rw [hsel] at h; simp at h
      · rw [hsel] at h
        simp only [Option.map_some'] at h
        obtain ⟨q, hq, hqp⟩ := ih j hsel
        injection h with h'
        subst h'
        exact ⟨q, hq, hqp⟩
    · rw [if_neg ht] at h
      simp only [Option.some.injEq] at h
      subst h
      exact ⟨r, rfl, by simpa using ht⟩

theorem get?_set_of_ne {α : Type} (l : List α) (j i : Nat) (a : α) (h : j ≠ i) :
    (l.set j a).get? i = l.get? i := by
  induction l generalizing i j with
  | nil => simp
  | cons x xs ih =>
    cases j with
    | zero =>
      cases i with
      | zero => exact absurd rfl h
      | succ i' => rfl
    | succ j' =>
      cases i with
      | zero => rfl
      | succ i' =>
        show (xs.set j' a).get? i' = xs.get? i'
        exact ih j' i' (fun he => h (by rw [he]))

/-- One iteration of the dispatcher with the worker: select the oldest
non-terminal replay and advance it by one worker tick; the other records
are untouched. -/
def systemStep (env : WorkerEnv) (conf : ReplayConf) (replays : List ReplayRecord) :
    List ReplayRecord :=
  match dispatcherSelect replays with
  | none => replays
  | some i =>
    match replays.get? i with
    | some r => replays.set i (processTick env conf r).record
    | none => replays

/-! ### Claim theorems for the replay worker -/

/-- C7: `identifyUpdatedRunStatus` updates only entries whose state is
`inProgress`, and only when the observed state looked up by the entry's
`scheduledAt` converted to UTC is `success` or `failed`; any other
observed state contributes no update.  Stated as a complete
characterisation of the update map the function returns. -/
theorem c7_identify_updated_run_status (expectedRuns observed : List JobRunStatus)
    (t : GoTime) (v : RunState) :
    lookupT (identifyUpdatedRunStatus expectedRuns observed) t = some v ↔
      (v = RunState.success ∨ v = RunState.failed) ∧
      lookupT (toRunStatusMap observed) t = some v ∧
      ∃ r ∈ expectedRuns, r.state = RunState.inProgress ∧ r.scheduledAt.toUTC = t :=
  lookupT_identAux (toRunStatusMap observed) expectedRuns t v

/-- C1: a worker tick on a replay in state `replayed` merges the observed
states over the stored runs and persists `success` iff no merged run is
in progress and none failed, `failed` with the message
`found N failed runs.` iff none is in progress and at least one failed,
and `replayed` otherwise; the merged run vector is persisted alongside. -/
theorem c1_replayed_tick_transition (cron : CronSchedule) (conf : ReplayConf)
    (stored observed : List JobRunStatus) (m : String)
    (fAt : GoTime → List JobRunStatus) :
    let out := processTick (happyEnv cron observed fAt) conf
      ⟨ReplayState.replayed, stored, m⟩
    let merged := mergeWithUpdatedRuns stored (identifyUpdatedRunStatus stored observed)
    let nInProgress := (merged.filter fun r => r.state = RunState.inProgress).length
    let nFailed := (merged.filter fun r => r.state = RunState.failed).length
    out.record.runs = merged ∧
    out.writes = [RepoWrite.updateReplay out.record.state merged out.record.message] ∧
    (out.record.state = ReplayState.success ↔ nInProgress = 0 ∧ nFailed = 0) ∧
    (out.record.state = ReplayState.failed ↔ nInProgress = 0 ∧ 0 < nFailed) ∧
    (out.record.state = ReplayState.failed →
      out.record.message = foundFailedRunsMessage nFailed) ∧
    (out.record.state = ReplayState.replayed ↔ 0 < nInProgress) ∧
    (out.record.state ≠ ReplayState.failed → out.record.message = "") := by
  intro out merged nInProgress nFailed
  have hIn : nInProgress = (getSortedRunsByStates merged [RunState.inProgress]).length :=
    (getSortedRunsByStates_singleton_length merged RunState.inProgress).symm
  have hFail : nFailed = (getSortedRunsByStates merged [RunState.failed]).length :=
    (getSortedRunsByStates_singleton_length merged RunState.failed).symm
  by_cases h1 : (getSortedRunsByStates merged [RunState.inProgress]).length = 0 ∧
      (getSortedRunsByStates merged [RunState.failed]).length = 0
  · have hout : out = ⟨[], [RepoWrite.updateReplay ReplayState.success merged ""],
        none, ⟨ReplayState.success, merged, ""⟩⟩ := by
      simp only [out, merged, processTick, happyEnv, processReplayedRequest, applyWrite, h1,
        if_pos, and_self, if_true]
    rw [hout]
    refine ⟨rfl, rfl, ?_, ?_, ?_, ?_, ?_⟩
    · exact ⟨fun _ => by omega, fun _ => rfl⟩
    · exact ⟨fun h => ReplayState.noConfusion h, fun h => absurd h.2 (by omega)⟩
    · exact fun h => ReplayState.noConfusion h
    · exact ⟨fun h => ReplayState.noConfusion h, fun h => absurd h (by omega)⟩
    · exact fun _ => rfl
  · by_cases h2 : (getSortedRunsByStates merged [RunState.inProgress]).length = 0 ∧
        (getSortedRunsByStates merged [RunState.failed]).length > 0
    · have hout : out = ⟨[], [RepoWrite.updateReplay ReplayState.failed merged
          (foundFailedRunsMessage (getSortedRunsByStates merged [RunState.failed]).length)],
          none, ⟨ReplayState.failed, merged,
            foundFailedRunsMessage (getSortedRunsByStates merged [RunState.failed]).length⟩⟩ := by
        simp only [out, merged, processTick, happyEnv, processReplayedRequest, applyWrite]
        rw [if_neg h1, if_pos h2]
      rw [hout]
      refine ⟨rfl, rfl, ?_, ?_, ?_, ?_, ?_⟩
      · exact ⟨fun h => ReplayState.noConfusion h, fun h => absurd h.2 (by omega)⟩
      · exact ⟨fun _ => by omega, fun _ => rfl⟩
      · exact fun _ => by rw [hFail]
      · exact ⟨fun h => ReplayState.noConfusion h, fun h => absurd h (by omega)⟩
      · exact fun h => absurd rfl h
    · have hout : out = ⟨[], [RepoWrite.updateReplay ReplayState.replayed merged ""],
          none, ⟨ReplayState.replayed, merged, ""⟩⟩ := by
        simp only [out, merged, processTick, happyEnv, processReplayedRequest, applyWrite]
        rw [if_neg h1, if_neg h2]
      rw [hout]
      refine ⟨rfl, rfl, ?_, ?_, ?_, ?_, ?_⟩
      · exact ⟨fun h => ReplayState.noConfusion h, fun h => absurd h (by omega)⟩
      · exact ⟨fun h => ReplayState.noConfusion h, fun h => absurd h (by omega)⟩
      · exact fun h => ReplayState.noConfusion h
      · exact ⟨fun _ => by omega, fun _ => rfl⟩
      · exact fun _ => rfl

/-- C10: whenever a worker tick fails with an error, the only persisted
write is `UpdateReplayStatus(failed, message)`; the stored run vector is
not part of that write, so it stays exactly as before the tick. -/
theorem c10_failed_tick_frame (env : WorkerEnv) (conf : ReplayConf) (rec : ReplayRecord)
    (e : String) (h : (processTick env conf rec).tickErr = some e) :
    (processTick env conf rec).writes = [RepoWrite.updateReplayStatus ReplayState.failed e] ∧
    (processTick env conf rec).record =
      { state := ReplayState.failed, runs := rec.runs, message := e } := by
  unfold processTick at h ⊢
  rcases hcron : env.cron with ec | cron
  · simp only [hcron, failOutcome, applyWrite] at h ⊢
    simp only [Option.some.injEq] at h
    subst h
    exact ⟨rfl, rfl⟩
  · simp only [hcron] at h ⊢
    rcases hstate : rec.state with _ | _ | _ | _ | _ <;> simp only [hstate] at h ⊢
    case created =>
      rcases harm : processNewReplayRequest env cron conf rec.runs with ea | v
      · simp only [harm, failOutcome, applyWrite] at h ⊢
        simp only [Option.some.injEq] at h
        subst h
        exact ⟨rfl, rfl⟩
      · obtain ⟨st, acts, updatedRuns⟩ := v
        simp only [harm] at h ⊢
        rcases hupd : env.updateReplayErr with _ | eu
        · simp [hupd] at h
        · simp only [hupd, failOutcome, applyWrite] at h ⊢
          simp only [Option.some.injEq] at h
          subst h
          exact ⟨rfl, rfl⟩
    case partialReplayed =>
      rcases harm : processPartialReplayedRequest env cron rec.runs with ea | v
      · simp only [harm, failOutcome, applyWrite] at h ⊢
        simp only [Option.some.injEq] at h
        subst h
        exact ⟨rfl, rfl⟩
      · obtain ⟨st, acts, updatedRuns⟩ := v
        simp only [harm] at h ⊢
        rcases hupd : env.updateReplayErr with _ | eu
        · simp [hupd] at h
        · simp only [hupd, failOutcome, applyWrite] at h ⊢
          simp only [Option.some.injEq] at h
          subst h
          exact ⟨rfl, rfl⟩
    case replayed =>
      rcases harm : processReplayedRequest env rec.runs with ea | v
      · simp only [harm, failOutcome, applyWrite] at h ⊢
        simp only [Option.some.injEq] at h
        subst h
        exact ⟨rfl, rfl⟩
      · obtain ⟨st, updatedRuns, msg⟩ := v
        simp only [harm] at h ⊢
        rcases hupd : env.updateReplayErr with _ | eu
        · simp [hupd] at h
        · simp only [hupd, failOutcome, applyWrite] at h ⊢
          simp only [Option.some.injEq] at h
          subst h
          exact ⟨rfl, rfl⟩
    case success => simp at h
    case failed => simp at h

/-- Witness for C10 at a concrete input: a tick whose cron lookup fails. -/
theorem c10_failed_tick_frame_witness :
    (processTick
        { cron := .error "boom", fetchRange := .ok [], fetchAt := fun _ => .ok [],
          clearErr := fun _ => none, clearBatchErr := fun _ _ => none,
          createErr := fun _ => none, updateReplayErr := none }
        ⟨false⟩
        ⟨ReplayState.replayed, [⟨⟨3, 0⟩, RunState.inProgress⟩], "msg"⟩).writes =
      [RepoWrite.updateReplayStatus ReplayState.failed "boom"] ∧
    (processTick
        { cron := .error "boom", fetchRange := .ok [], fetchAt := fun _ => .ok [],
          clearErr := fun _ => none, clearBatchErr := fun _ _ => none,
          createErr := fun _ => none, updateReplayErr := none }
        ⟨false⟩
        ⟨ReplayState.replayed, [⟨⟨3, 0⟩, RunState.inProgress⟩], "msg"⟩).record =
      { state := ReplayState.failed, runs := [⟨⟨3, 0⟩, RunState.inProgress⟩],
        message := "boom" } :=
  c10_failed_tick_frame _ _ _ "boom" rfl

/-- C6: the modelled dispatcher only hands non-terminal replays to the
worker, so a replay record in a terminal state (`success` or `failed`)
is never mutated by a system step. -/
theorem c6_terminal_records_frozen (env : WorkerEnv) (conf : ReplayConf)
    (replays : List ReplayRecord) (i : Nat) (r : ReplayRecord)
    (hget : replays.get? i = some r) (hterm : r.state.isTerminal = true) :
    (systemStep env conf replays).get? i = some r := by
  rcases hsel : dispatcherSelect replays with _ | j
  · simp only [systemStep, hsel]
    exact hget
  · rcases hget2 : replays.get? j with _ | q
    · simp only [systemStep, hsel, hget2]
      exact hget
    · obtain ⟨q', hq', hqp⟩ := dispatcherSelect_spec replays j hsel
      rw [hget2] at hq'
      injection hq' with hq''
      subst hq''
      have hij : j ≠ i := by
        intro hji
        subst hji
        rw [hget2] at hget
        injection hget with h'
        subst h'
        rw [hterm] at hqp
        cases hqp
      simp only [systemStep, hsel, hget2]
      rw [get?_set_of_ne _ _ _ _ hij]
      exact hget

/-- Witness for C6 at a concrete input: a two-element store whose first
record is terminal; the step advances the second and leaves the first
untouched. -/
theorem c6_terminal_records_frozen_witness :
    (systemStep (happyEnv ⟨fun i => i - 1⟩ [] fun _ => []) ⟨false⟩
        [⟨ReplayState.success, [], "done"⟩, ⟨ReplayState.replayed, [], ""⟩]).get? 0 =
      some ⟨ReplayState.success, [], "done"⟩ :=
  c6_terminal_records_frozen _ _ _ 0 ⟨ReplayState.success, [], "done"⟩ rfl rfl

/-- Re-merging the already merged run vector against the same observed
runs yields no further update: after a merge, every run still
`inProgress` has an observed state other than `success`/`failed`, so the
second update map is empty. -/
theorem identify_merge_stable (runs incoming : List JobRunStatus) :
    identifyUpdatedRunStatus
      (mergeWithUpdatedRuns runs (identifyUpdatedRunStatus runs incoming)) incoming = [] := by
  apply identAux_eq_nil
  intro r hr hstate
  unfold mergeWithUpdatedRuns at hr
  rw [List.mem_map] at hr
  obtain ⟨r0, hr0, hf⟩ := hr
  rcases hm : lookupT (identifyUpdatedRunStatus runs incoming) r0.scheduledAt.toUTC with _ | v
  · simp only [hm] at hf
    subst hf
    constructor
    · intro hobs
      have : lookupT (identAux (toRunStatusMap incoming) runs) r0.scheduledAt.toUTC =
          some RunState.success :=
        (lookupT_identAux (toRunStatusMap incoming) runs r0.scheduledAt.toUTC
          RunState.success).mpr ⟨Or.inl rfl, hobs, r0, hr0, hstate, rfl⟩
      have hm2 : lookupT (identAux (toRunStatusMap incoming) runs) r0.scheduledAt.toUTC = none := hm
      rw [hm2] at this
      cases this
    · intro hobs
      have : lookupT (identAux (toRunStatusMap incoming) runs) r0.scheduledAt.toUTC =
          some RunState.failed :=
        (lookupT_identAux (toRunStatusMap incoming) runs r0.scheduledAt.toUTC
          RunState.failed).mpr ⟨Or.inr rfl, hobs, r0, hr0, hstate, rfl⟩
      have hm2 : lookupT (identAux (toRunStatusMap incoming) runs) r0.scheduledAt.toUTC = none := hm
      rw [hm2] at this
      cases this
  · simp only [hm] at hf
    have hv : v = RunState.success ∨ v = RunState.failed :=
      ((lookupT_identAux (toRunStatusMap incoming) runs r0.scheduledAt.toUTC v).mp hm).1
    have hrstate : r.state = v := by rw [← hf]
    rw [hrstate] at hstate
    rcases hv with hv | hv <;> rw [hv] at hstate <;> cases hstate

/-- The concrete replay used to refute claim C5: a `partialReplayed`
replay with a single `inProgress` run which the scheduler already
observes as `success`. -/
def c5Replay : ReplayRecord :=
  ⟨ReplayState.partialReplayed, [⟨⟨0, 0⟩, RunState.inProgress⟩], ""⟩

/-- The environment for the C5 counterexample: every collaborator call
succeeds, and the scheduler's observable run states — identical in both
ticks — report the single run as `success`. -/
def c5Env : WorkerEnv :=
  happyEnv ⟨fun i => i - 1⟩ [⟨⟨0, 0⟩, RunState.success⟩] (fun _ => [])

/-- Counterexample to C5 as stated: a replay in the non-terminal state
`partialReplayed` whose single run is `inProgress` and observed
`success`.  With the external scheduler unchanged between ticks, the
first tick persists `(replayed, [success])` and the second persists
`(success, [success])`, so `tick (tick R) ≠ tick R`. -/
theorem c5_counterexample :
    c5Replay.state.isTerminal = false ∧
    (processTick c5Env ⟨false⟩ c5Replay).record =
      ⟨ReplayState.replayed, [⟨⟨0, 0⟩, RunState.success⟩], ""⟩ ∧
    (processTick c5Env ⟨false⟩ (processTick c5Env ⟨false⟩ c5Replay).record).record =
      ⟨ReplayState.success, [⟨⟨0, 0⟩, RunState.success⟩], ""⟩ ∧
    (processTick c5Env ⟨false⟩ (processTick c5Env ⟨false⟩ c5Replay).record).record ≠
      (processTick c5Env ⟨false⟩ c5Replay).record := by
  refine ⟨rfl, by decide, by decide, by decide⟩

/-- C5 amended: ticks are idempotent from state `replayed` — for a replay
in state `replayed`, a second tick against unchanged scheduler
observations (the same environment) reproduces the first tick's record.
(From `created` and `partialReplayed` a second tick may advance the
state machine further, as `c5_counterexample` shows.) -/
theorem c5_amended_replayed_tick_idempotent (env : WorkerEnv) (conf : ReplayConf)
    (rec : ReplayRecord) (h : rec.state = ReplayState.replayed) :
    (processTick env conf (processTick env conf rec).record).record =
      (processTick env conf rec).record := by
  rcases hcron : env.cron with e | cron
  · have ht1 : processTick env conf rec = failOutcome rec e := by
      simp [processTick, hcron]
    rw [ht1]
    show (processTick env conf ⟨ReplayState.failed, rec.runs, e⟩).record = _
    have ht2 : processTick env conf ⟨ReplayState.failed, rec.runs, e⟩ =
        failOutcome ⟨ReplayState.failed, rec.runs, e⟩ e := by
      simp [processTick, hcron]
    rw [ht2]
    rfl
  · rcases hrange : env.fetchRange with e | incoming
    · have ht1 : (processTick env conf rec).record = ⟨ReplayState.failed, rec.runs, e⟩ := by
        simp [processTick, hcron, h, processReplayedRequest, hrange, failOutcome, applyWrite]
      rw [ht1]
      simp [processTick, hcron]
    · by_cases c1 : (getSortedRunsByStates (mergeWithUpdatedRuns rec.runs
          (identifyUpdatedRunStatus rec.runs incoming)) [RunState.inProgress]).length = 0 ∧
          (getSortedRunsByStates (mergeWithUpdatedRuns rec.runs
            (identifyUpdatedRunStatus rec.runs incoming)) [RunState.failed]).length = 0
      · rcases hupd : env.updateReplayErr with _ | e2
        · have ht1 : (processTick env conf rec).record =
              ⟨ReplayState.success, mergeWithUpdatedRuns rec.runs
                (identifyUpdatedRunStatus rec.runs incoming), ""⟩ := by
            simp only [processTick, hcron, h, processReplayedRequest, hrange, hupd, applyWrite]
            rw [if_pos c1]
          rw [ht1]
          simp [processTick, hcron]
        · have ht1 : (processTick env conf rec).record = ⟨ReplayState.failed, rec.runs, e2⟩ := by
            simp only [processTick, hcron, h, processReplayedRequest, hrange, hupd,
              failOutcome, applyWrite]
            rw [if_pos c1]
          rw [ht1]
          simp [processTick, hcron]
      · by_cases c2 : (getSortedRunsByStates (mergeWithUpdatedRuns rec.runs
            (identifyUpdatedRunStatus rec.runs incoming)) [RunState.inProgress]).length = 0 ∧
            (getSortedRunsByStates (mergeWithUpdatedRuns rec.runs
              (identifyUpdatedRunStatus rec.runs incoming)) [RunState.failed]).length > 0
        · rcases hupd : env.updateReplayErr with _ | e2
          · have ht1 : (processTick env conf rec).record =
                ⟨ReplayState.failed, mergeWithUpdatedRuns rec.runs
                  (identifyUpdatedRunStatus rec.runs incoming),
                  foundFailedRunsMessage (getSortedRunsByStates (mergeWithUpdatedRuns rec.runs
                    (identifyUpdatedRunStatus rec.runs incoming)) [RunState.failed]).length⟩ := by
              simp only [processTick, hcron, h, processReplayedRequest, hrange, hupd, applyWrite]
              rw [if_neg c1, if_pos c2]
            rw [ht1]
            simp [processTick, hcron]
          · have ht1 : (processTick env conf rec).record = ⟨ReplayState.failed, rec.runs, e2⟩ := by
              simp only [processTick, hcron, h, processReplayedRequest, hrange, hupd,
                failOutcome, applyWrite]
              rw [if_neg c1, if_pos c2]
            rw [ht1]
            simp [processTick, hcron]
        · rcases hupd : env.updateReplayErr with _ | e2
          · have hstable : identifyUpdatedRunStatus (mergeWithUpdatedRuns rec.runs
                (identifyUpdatedRunStatus rec.runs incoming)) incoming = [] :=
              identify_merge_stable rec.runs incoming
            have hmerge2 : mergeWithUpdatedRuns (mergeWithUpdatedRuns rec.runs
                (identifyUpdatedRunStatus rec.runs incoming))
                (identifyUpdatedRunStatus (mergeWithUpdatedRuns rec.runs
                  (identifyUpdatedRunStatus rec.runs incoming)) incoming) =
                mergeWithUpdatedRuns rec.runs (identifyUpdatedRunStatus rec.runs incoming) := by
              rw [hstable]
              exact mergeWithUpdatedRuns_nil _
            have ht1 : (processTick env conf rec).record =
                ⟨ReplayState.replayed, mergeWithUpdatedRuns rec.runs
                  (identifyUpdatedRunStatus rec.runs incoming), ""⟩ := by
              simp only [processTick, hcron, h, processReplayedRequest, hrange, hupd, applyWrite]
              rw [if_neg c1, if_neg c2]
            rw [ht1]
            have ht2 : (processTick env conf ⟨ReplayState.replayed, mergeWithUpdatedRuns rec.runs
                (identifyUpdatedRunStatus rec.runs incoming), ""⟩).record =
                ⟨ReplayState.replayed, mergeWithUpdatedRuns rec.runs
                  (identifyUpdatedRunStatus rec.runs incoming), ""⟩ := by
              simp only [processTick, hcron, processReplayedRequest, hrange, hupd, applyWrite,
                hmerge2]
              rw [if_neg c1, if_neg c2]
            exact ht2
          · have ht1 : (processTick env conf rec).record = ⟨ReplayState.failed, rec.runs, e2⟩ := by
              simp only [processTick, hcron, h, processReplayedRequest, hrange, hupd,
                failOutcome, applyWrite]
              rw [if_neg c1, if_neg c2]
            rw [ht1]
            simp [processTick, hcron]

theorem head?_mem {α : Type} (l : List α) (a : α) (h : l.head? = some a) : a ∈ l := by
  cases l with
  | nil => cases h
  | cons x xs =>
    injection h with h'
    subst h'
    exact List.mem_cons_self x xs

theorem filterMap_const_none {α β : Type} (l : List α) :
    (l.filterMap fun _ => (none : Option β)) = [] := by
  induction l with
  | nil => rfl
  | cons x xs ih => simp [List.filterMap_cons, ih]

/-- Merging a singleton update map over a run vector whose scheduled
times (and the key) are in UTC changes exactly the runs scheduled at the
key's time. -/
theorem mergeWithUpdatedRuns_singleton (runs : List JobRunStatus) (t : GoTime) (v : RunState)
    (hloc : ∀ r ∈ runs, r.scheduledAt.loc = 0) (ht : t.loc = 0) :
    mergeWithUpdatedRuns runs [(t, v)] =
      runs.map (fun r =>
        if r.scheduledAt = t then ⟨r.scheduledAt, v⟩ else r) := by
  unfold mergeWithUpdatedRuns
  apply List.map_congr_left
  intro r hr
  have hr0 : r.scheduledAt.toUTC = r.scheduledAt := GoTime.toUTC_of_utc _ (hloc r hr)
  by_cases he : r.scheduledAt = t
  · simp [lookupT_cons, hr0, he, GoTime.toUTC_of_utc t ht]
  · simp [lookupT_cons, hr0, he, lookupT]

/-- Witness for the amended C5 at a concrete input: a `replayed` replay
with one still-in-progress run whose observed state is `running`; both
ticks persist the same record. -/
theorem c5_amended_replayed_tick_idempotent_witness :
    (processTick (happyEnv ⟨fun i => i - 1⟩ [⟨⟨0, 0⟩, RunState.running⟩] fun _ => []) ⟨false⟩
      (processTick (happyEnv ⟨fun i => i - 1⟩ [⟨⟨0, 0⟩, RunState.running⟩] fun _ => []) ⟨false⟩
        ⟨ReplayState.replayed, [⟨⟨0, 0⟩, RunState.inProgress⟩], ""⟩).record).record =
    (processTick (happyEnv ⟨fun i => i - 1⟩ [⟨⟨0, 0⟩, RunState.running⟩] fun _ => []) ⟨false⟩
      ⟨ReplayState.replayed, [⟨⟨0, 0⟩, RunState.inProgress⟩], ""⟩).record :=
  c5_amended_replayed_tick_idempotent _ _ _ rfl

/-- C2: a worker tick on a replay in state `created`.

Parallel config: the tick issues `ClearBatch` over the logical times of
the first and last runs (under the created-replay invariant that every
stored run is still `pending` and the vector is in schedule order, the
first and last executable runs are the first and last expected runs),
then `CreateRun` (tagged `"replayed"`) for exactly the expected runs the
scheduler does not observe, and persists state `replayed` with every
stored run set to `inProgress`.

Sequential config with more than one run: the first executable run is
the first `pending` run; the tick dispatches only that run — a
`CreateRun` when the scheduler observes nothing at its scheduled time,
otherwise a `Clear` — and persists state `partialReplayed` with exactly
that run's entries set to `inProgress`. -/
theorem c2_created_tick_dispatch :
    (∀ (cron : CronSchedule) (observed : List JobRunStatus)
        (fAt : GoTime → List JobRunStatus) (runs : List JobRunStatus) (m : String)
        (r1 rN : JobRunStatus),
      StrictByTime runs →
      (∀ r ∈ runs, r.state = RunState.pending) →
      runs.head? = some r1 →
      runs.getLast? = some rN →
      (processTick (happyEnv cron observed fAt) ⟨true⟩
          ⟨ReplayState.created, runs, m⟩).actions =
        SchedAction.clearBatch (r1.getLogicalTime cron) (rN.getLogicalTime cron) ::
          (getMissingRuns runs observed).map
            (fun r => SchedAction.createRun (r.getLogicalTime cron) "replayed") ∧
      (∀ r, r ∈ getMissingRuns runs observed ↔
          r ∈ runs ∧ ∀ o ∈ observed, o.scheduledAt.toUTC ≠ r.scheduledAt) ∧
      (processTick (happyEnv cron observed fAt) ⟨true⟩
          ⟨ReplayState.created, runs, m⟩).writes =
        [RepoWrite.updateReplay ReplayState.replayed
          (runs.map fun r => ⟨r.scheduledAt, RunState.inProgress⟩) ""] ∧
      (processTick (happyEnv cron observed fAt) ⟨true⟩
          ⟨ReplayState.created, runs, m⟩).record =
        ⟨ReplayState.replayed, runs.map fun r => ⟨r.scheduledAt, RunState.inProgress⟩, ""⟩) ∧
    (∀ (cron : CronSchedule) (observed : List JobRunStatus)
        (fAt : GoTime → List JobRunStatus) (runs : List JobRunStatus) (m : String)
        (r0 : JobRunStatus),
      StrictByTime runs →
      (∀ r ∈ runs, r.scheduledAt.loc = 0) →
      runs.length > 1 →
      getFirstExecutableRun runs = some r0 →
      getFirstExecutableRun runs =
        (runs.filter fun r => r.state = RunState.pending).head? ∧
      (processTick (happyEnv cron observed fAt) ⟨false⟩
          ⟨ReplayState.created, runs, m⟩).actions =
        (if fAt r0.scheduledAt = [] then
          [SchedAction.createRun (r0.getLogicalTime cron) "replayed"]
        else [SchedAction.clear (r0.getLogicalTime cron)]) ∧
      (processTick (happyEnv cron observed fAt) ⟨false⟩
          ⟨ReplayState.created, runs, m⟩).writes =
        [RepoWrite.updateReplay ReplayState.partialReplayed
          (runs.map fun r =>
            if r.scheduledAt = r0.scheduledAt then ⟨r.scheduledAt, RunState.inProgress⟩
            else r) ""] ∧
      (processTick (happyEnv cron observed fAt) ⟨false⟩
          ⟨ReplayState.created, runs, m⟩).record =
        ⟨ReplayState.partialReplayed,
          runs.map fun r =>
            if r.scheduledAt = r0.scheduledAt then ⟨r.scheduledAt, RunState.inProgress⟩
            else r, ""⟩) := by
  constructor
  · intro cron observed fAt runs m r1 rN hsorted hpend hhead hlast
    have hfilter : runs.filter (fun r => [RunState.pending].contains r.state) = runs := by
      apply List.filter_eq_self.mpr
      intro a ha
      simp [List.contains, hpend a ha]
    have hsort : sortRunsByTime runs = runs := sortRunsByTime_of_sorted runs hsorted
    have hfirst : getFirstExecutableRun runs = some r1 := by
      unfold getFirstExecutableRun getSortedRunsByStates
      rw [hfilter, hsort, hhead]
    have hlastex : getLastExecutableRun runs = some rN := by
      unfold getLastExecutableRun getSortedRunsByStates
      rw [hfilter, hsort, hlast]
    have hout : processTick (happyEnv cron observed fAt) ⟨true⟩
        ⟨ReplayState.created, runs, m⟩ =
        ⟨SchedAction.clearBatch (r1.getLogicalTime cron) (rN.getLogicalTime cron) ::
            (getMissingRuns runs observed).map
              (fun r => SchedAction.createRun (r.getLogicalTime cron) "replayed"),
          [RepoWrite.updateReplay ReplayState.replayed
            (runs.map fun r => ⟨r.scheduledAt, RunState.inProgress⟩) ""],
          none,
          ⟨ReplayState.replayed, runs.map fun r => ⟨r.scheduledAt, RunState.inProgress⟩, ""⟩⟩ := by
      simp only [processTick, happyEnv, processNewReplayRequest,
        processNewReplayRequestParallel, createMissingRuns, hfirst, hlastex,
        filterMap_const_none, List.isEmpty_nil, applyWrite,
        Bool.not_true, Bool.false_and, if_true]
      rfl
    rw [hout]
    exact ⟨rfl, fun r => mem_getMissingRuns r runs observed, rfl, rfl⟩
  · intro cron observed fAt runs m r0 hsorted hutc hlen hfirst
    have hchar : getFirstExecutableRun runs =
        (runs.filter fun r => r.state = RunState.pending).head? := by
      unfold getFirstExecutableRun getSortedRunsByStates
      have hf : runs.filter (fun r => [RunState.pending].contains r.state) =
          runs.filter (fun r => r.state = RunState.pending) := by
        apply List.filter_congr
        intro a _
        simp [List.contains, eq_comm]
      rw [hf, sortRunsByTime_of_sorted _
        (List.Pairwise.sublist (List.filter_sublist _) hsorted)]
    have hr0mem : r0 ∈ runs := by
      have hmem : r0 ∈ getSortedRunsByStates runs [RunState.pending] :=
        head?_mem _ _ hfirst
      exact ((mem_getSortedRunsByStates _ _ _).mp hmem).1
    have hmerge : mergeWithUpdatedRuns runs [(r0.scheduledAt, RunState.inProgress)] =
        runs.map (fun r =>
          if r.scheduledAt = r0.scheduledAt then ⟨r.scheduledAt, RunState.inProgress⟩
          else r) :=
      mergeWithUpdatedRuns_singleton runs r0.scheduledAt RunState.inProgress hutc
        (hutc r0 hr0mem)
    rcases hfa : fAt r0.scheduledAt with _ | ⟨x, xs⟩
    · have hout : processTick (happyEnv cron observed fAt) ⟨false⟩
          ⟨ReplayState.created, runs, m⟩ =
          ⟨[SchedAction.createRun (r0.getLogicalTime cron) "replayed"],
            [RepoWrite.updateReplay ReplayState.partialReplayed
              (runs.map fun r =>
                if r.scheduledAt = r0.scheduledAt then ⟨r.scheduledAt, RunState.inProgress⟩
                else r) ""],
            none,
            ⟨ReplayState.partialReplayed,
              runs.map fun r =>
                if r.scheduledAt = r0.scheduledAt then ⟨r.scheduledAt, RunState.inProgress⟩
                else r, ""⟩⟩ := by
        simp only [processTick, happyEnv, processNewReplayRequest,
          processNewReplayRequestSequential, replayRunOnScheduler, hfirst, hfa, hmerge,
          applyWrite, hlen, Bool.not_false, Bool.true_and, decide_True, if_true]
        rfl
      rw [hout]
      exact ⟨hchar, by simp [hfa], rfl, rfl⟩
    · have hout : processTick (happyEnv cron observed fAt) ⟨false⟩
          ⟨ReplayState.created, runs, m⟩ =
          ⟨[SchedAction.clear (r0.getLogicalTime cron)],
            [RepoWrite.updateReplay ReplayState.partialReplayed
              (runs.map fun r =>
                if r.scheduledAt = r0.scheduledAt then ⟨r.scheduledAt, RunState.inProgress⟩
                else r) ""],
            none,
            ⟨ReplayState.partialReplayed,
              runs.map fun r =>
                if r.scheduledAt = r0.scheduledAt then ⟨r.scheduledAt, RunState.inProgress⟩
                else r, ""⟩⟩ := by
        simp only [processTick, happyEnv, processNewReplayRequest,
          processNewReplayRequestSequential, replayRunOnScheduler, hfirst, hfa, hmerge,
          applyWrite, hlen, Bool.not_false, Bool.true_and, decide_True, if_true]
        rfl
      rw [hout]
      refine ⟨hchar, ?_, rfl, rfl⟩
      rw [if_neg (by simp [hfa])]

/-- Witness for C2 at concrete inputs: a two-run created replay, in
parallel and in sequential mode, against a scheduler observing
nothing. -/
theorem c2_created_tick_dispatch_witness :
    ((processTick (happyEnv ⟨fun i => i - 1⟩ [] fun _ => []) ⟨true⟩
        ⟨ReplayState.created,
          [⟨⟨0, 0⟩, RunState.pending⟩, ⟨⟨5, 0⟩, RunState.pending⟩], ""⟩).actions =
      SchedAction.clearBatch ((-1 : Int)) (4 : Int) ::
        (getMissingRuns [⟨⟨0, 0⟩, RunState.pending⟩, ⟨⟨5, 0⟩, RunState.pending⟩] []).map
          (fun r => SchedAction.createRun (r.getLogicalTime ⟨fun i => i - 1⟩) "replayed")) ∧
    ((processTick (happyEnv ⟨fun i => i - 1⟩ [] fun _ => []) ⟨false⟩
        ⟨ReplayState.created,
          [⟨⟨0, 0⟩, RunState.pending⟩, ⟨⟨5, 0⟩, RunState.pending⟩], ""⟩).record =
      ⟨ReplayState.partialReplayed,
        [⟨⟨0, 0⟩, RunState.pending⟩, ⟨⟨5, 0⟩, RunState.pending⟩].map
          (fun r => if r.scheduledAt = (⟨0, 0⟩ : GoTime) then
            ⟨r.scheduledAt, RunState.inProgress⟩ else r), ""⟩) := by
  constructor
  · exact (c2_created_tick_dispatch.1 ⟨fun i => i - 1⟩ [] (fun _ => [])
      [⟨⟨0, 0⟩, RunState.pending⟩, ⟨⟨5, 0⟩, RunState.pending⟩] ""
      ⟨⟨0, 0⟩, RunState.pending⟩ ⟨⟨5, 0⟩, RunState.pending⟩
      (by unfold StrictByTime; decide) (by decide) rfl rfl).1
  · exact (c2_created_tick_dispatch.2 ⟨fun i => i - 1⟩ [] (fun _ => [])
      [⟨⟨0, 0⟩, RunState.pending⟩, ⟨⟨5, 0⟩, RunState.pending⟩] ""
      ⟨⟨0, 0⟩, RunState.pending⟩
      (by unfold StrictByTime; decide) (by decide) (by decide) (by decide)).2.2.2

/-! ## The executor input compiler

The compiler itself (`executor_input_compiler.go`) is not among the
sources at hand — only its test is.  The definitions below are modelled
from the specification (sections 3, 4.C and 4.E) and pinned against the
concrete inputs and outputs the test `executor_input_compiler_test.go`
demands of it. -/

/-- ASCII lower-casing of a character (`strings.ToLower` restricted to
the ASCII job names the test exercises). -/
def asciiLower (c : Char) : Char :=
  if 65 ≤ c.toNat ∧ c.toNat ≤ 90 then Char.ofNat (c.toNat + 32) else c

/-- A character the `job_name` label value may contain according to the
spec's `[a-z0-9-]` class. -/
def allowedLabelChar (c : Char) : Bool :=
  decide (97 ≤ c.toNat ∧ c.toNat ≤ 122) || decide (48 ≤ c.toNat ∧ c.toNat ≤ 57) || c == '-'

/-- Modelled from the spec: lowercase the value and replace every
character outside `[a-z0-9-]` with `-`. -/
def sanitiseValueChars (s : String) : List Char :=
  (s.data.map asciiLower).map (fun c => if allowedLabelChar c then c else '-')

/-- Modelled from the spec and pinned by the test: the sanitised label
value.  The test expects the 68-character job name
`nameWith Invalid~Characters)(Which Are.even.LongerThan^63Charancters`
to become `__h-invalid-characters--which-are-even-longerthan-63charancters`,
i.e. when the sanitised value exceeds 63 characters its last 61
characters are kept behind a `__` marker (not a plain truncation to the
first 63 characters). -/
def sanitiseLabelChars (s : String) : List Char :=
  let t := sanitiseValueChars s
  if t.length > 63 then '_' :: '_' :: t.drop (t.length - 61) else t

/-- The sanitised label value as a string. -/
def sanitiseLabel (s : String) : String := ⟨sanitiseLabelChars s⟩

/-- The sanitisation exactly as claim C3 words it: lowercase, replace
characters outside `[a-z0-9-]` with `-`, and truncate to 63 characters. -/
def claimSanitiseChars (s : String) : List Char :=
  (sanitiseValueChars s).take 63

/-- Modelled from the spec: the label set
`{project=…, namespace=…, job_name=…, job_id=…}` with the job name
sanitised. -/
def jobLabels (projectName namespaceName jobName jobId : String) :
    List (String × String) :=
  [("project", projectName), ("namespace", namespaceName),
   ("job_name", sanitiseLabel jobName), ("job_id", jobId)]

/-- Modelled from the spec: the comma-joined `JOB_LABELS` value. -/
def jobLabelsString (p n j i : String) : String :=
  String.intercalate "," ((jobLabels p n j i).map (fun kv => kv.1 ++ "=" ++ kv.2))

/-- `leadsWith sub l` holds when `l` starts with `sub`. -/
def leadsWith : List Char → List Char → Bool
  | [], _ => true
  | _ :: _, [] => false
  | a :: as, b :: bs => a == b && leadsWith as bs

/-- `containsSub sub l` holds when `sub` occurs contiguously in `l`. -/
def containsSub (sub : List Char) : List Char → Bool
  | [] => sub.isEmpty
  | c :: rest => leadsWith sub (c :: rest) || containsSub sub rest

/-- The secret-reference marker of the template language (`.secret.`). -/
def secretMarker : List Char := ['.', 's', 'e', 'c', 'r', 'e', 't', '.']

/-- Whether a template value references the secret context. -/
def hasSecretRef (v : String) : Bool := containsSub secretMarker v.data

/-- Whether a key name begins with `secret`, case-insensitively — the
classification rule exactly as claim C4 words it. -/
def keyStartsWithSecret (k : String) : Bool :=
  leadsWith ['s', 'e', 'c', 'r', 'e', 't'] (k.data.map asciiLower)

/-- Modelled from the spec and pinned by the compiler test: the
config-vs-secret partition of the executor input compiler.  An entry is
classified as secret when its template value references the secret
context — the test classifies `hook_secret = "a.secret.val"` as a
secret although its key does not begin with `secret`, matching the
spec's "whose evaluated value came from a `secret.*` lookup". -/
def splitConfigWithSecrets (conf : List (String × String)) :
    List (String × String) × List (String × String) :=
  (conf.filter (fun kv => !(hasSecretRef kv.2)),
   conf.filter (fun kv => hasSecretRef kv.2))

/-- The partition rule exactly as claim C4 states it: by key name
beginning with `secret`, case-insensitively. -/
def splitConfigByKeyName (conf : List (String × String)) :
    List (String × String) × List (String × String) :=
  (conf.filter (fun kv => !(keyStartsWithSecret kv.1)),
   conf.filter (fun kv => keyStartsWithSecret kv.1))

/-- Modelled from the spec (4.C): the map form of the template compiler —
every entry is evaluated and any entry failure aborts the call and
surfaces the failure.  The prepared evaluation context is abstracted
into the single-string evaluator `eng`. -/
def compileMap (eng : String → Except String String) :
    List (String × String) → Except String (List (String × String))
  | [] => .ok []
  | (k, v) :: rest =>
    match eng v, compileMap eng rest with
    | .ok cv, .ok crest => .ok ((k, cv) :: crest)
    | .error e, _ => .error e
    | .ok _, .error e => .error e

/-- `JobPluginService.compileConfig` (plugin service source): compile
each config entry against the project/secret template context; a
per-entry failure is suppressed with a warning and the original template
text kept as that entry's value; the function itself never fails. -/
def compileConfig (eng : String → Except String String)
    (configs : List (String × String)) : List (String × String) :=
  configs.map (fun kv =>
    match eng kv.2 with
    | .ok compiledConf => (kv.1, compiledConf)
    | .error _ => (kv.1, kv.2))

/-! ### RFC3339 timestamps at second precision

`time.Format(time.RFC3339)` renders the civil fields of the instant to
second precision (fractional seconds are not part of the layout).  The
civil fields themselves are the model of a Go time here; the sub-second
part is carried separately and dropped by rendering. -/

/-- A timestamp as its civil (wall-clock, UTC) fields plus the
sub-second component that the RFC3339 layout does not carry. -/
structure CivilTime where
  year : Nat
  month : Nat
  day : Nat
  hour : Nat
  minute : Nat
  second : Nat
  nanos : Nat
deriving DecidableEq

/-- Field ranges representable in the RFC3339 layout. -/
def CivilTime.Valid (t : CivilTime) : Prop :=
  t.year ≤ 9999 ∧ 1 ≤ t.month ∧ t.month ≤ 12 ∧ 1 ≤ t.day ∧ t.day ≤ 31 ∧
  t.hour ≤ 23 ∧ t.minute ≤ 59 ∧ t.second ≤ 59

def digitChar (n : Nat) : Char := Char.ofNat (48 + n)

def pad2 (n : Nat) : List Char := [digitChar (n / 10), digitChar (n % 10)]

def pad4 (n : Nat) : List Char :=
  [digitChar (n / 1000), digitChar (n / 100 % 10), digitChar (n / 10 % 10), digitChar (n % 10)]

/-- Modelled from the spec: `executedAt.Format(time.RFC3339)` for a UTC
time — `YYYY-MM-DDThh:mm:ssZ`; the sub-second component is dropped. -/
def renderRFC3339Chars (t : CivilTime) : List Char :=
  pad4 t.year ++ '-' :: (pad2 t.month ++ '-' :: (pad2 t.day ++ 'T' ::
    (pad2 t.hour ++ ':' :: (pad2 t.minute ++ ':' :: (pad2 t.second ++ ['Z'])))))

def renderRFC3339 (t : CivilTime) : String := ⟨renderRFC3339Chars t⟩

def digitVal (c : Char) : Option Nat :=
  if 48 ≤ c.toNat ∧ c.toNat ≤ 57 then some (c.toNat - 48) else none

/-- The numeric value of two rendered digits. -/
def val2 (a b : Char) : Option Nat :=
  match digitVal a, digitVal b with
  | some x, some y => some (10 * x + y)
  | _, _ => none

/-- The numeric value of four rendered digits. -/
def val4 (a b c d : Char) : Option Nat :=
  match digitVal a, digitVal b, digitVal c, digitVal d with
  | some w, some x, some y, some z => some (1000 * w + 100 * x + 10 * y + z)
  | _, _, _, _ => none

/-- Modelled from the spec: parsing the fixed-width UTC RFC3339 layout
back into civil fields (`time.Parse(time.RFC3339, …)`); the parsed time
has no sub-second component. -/
def parseRFC3339Chars (l : List Char) : Option CivilTime :=
  match l with
  | y1 :: y2 :: y3 :: y4 :: c1 :: mo1 :: mo2 :: c2 :: d1 :: d2 :: c3 ::
      h1 :: h2 :: c4 :: mi1 :: mi2 :: c5 :: s1 :: s2 :: c6 :: [] =>
    if c1 = '-' ∧ c2 = '-' ∧ c3 = 'T' ∧ c4 = ':' ∧ c5 = ':' ∧ c6 = 'Z' then
      match val4 y1 y2 y3 y4, val2 mo1 mo2, val2 d1 d2,
          val2 h1 h2, val2 mi1 mi2, val2 s1 s2 with
      | some year, some month, some day, some hour, some minute, some second =>
        if 1 ≤ month ∧ month ≤ 12 ∧ 1 ≤ day ∧ day ≤ 31 ∧
            hour ≤ 23 ∧ minute ≤ 59 ∧ second ≤ 59 then
          some ⟨year, month, day, hour, minute, second, 0⟩
        else none
      | _, _, _, _, _, _ => none
    else none
  | _ => none

def parseRFC3339 (s : String) : Option CivilTime := parseRFC3339Chars s.data

theorem digitVal_digitChar (d : Nat) (h : d ≤ 9) : digitVal (digitChar d) = some d := by
  interval_cases d <;> decide

theorem val2_pad2 (n : Nat) (h : n ≤ 99) :
    val2 (digitChar (n / 10)) (digitChar (n % 10)) = some n := by
  unfold val2
  rw [digitVal_digitChar (n / 10) (by omega), digitVal_digitChar (n % 10) (by omega)]
  show some (10 * (n / 10) + n % 10) = some n
  congr 1
  omega

theorem val4_pad4 (n : Nat) (h : n ≤ 9999) :
    val4 (digitChar (n / 1000)) (digitChar (n / 100 % 10))
      (digitChar (n / 10 % 10)) (digitChar (n % 10)) = some n := by
  unfold val4
  rw [digitVal_digitChar (n / 1000) (by omega), digitVal_digitChar (n / 100 % 10) (by omega),
    digitVal_digitChar (n / 10 % 10) (by omega), digitVal_digitChar (n % 10) (by omega)]
  show some (1000 * (n / 1000) + 100 * (n / 100 % 10) + 10 * (n / 10 % 10) + n % 10) = some n
  congr 1
  omega

/-- Formatting a representable timestamp as RFC3339 and parsing it back
recovers the timestamp with its sub-second component dropped. -/
theorem parse_render_rfc3339 (t : CivilTime) (h : t.Valid) :
    parseRFC3339 (renderRFC3339 t) = some { t with nanos := 0 } := by
  obtain ⟨hy, hm1, hm2, hd1, hd2, hh, hmin, hs⟩ := h
  show parseRFC3339Chars (renderRFC3339Chars t) = _
  simp only [renderRFC3339Chars, pad4, pad2, List.cons_append, List.nil_append,
    parseRFC3339Chars]
  rw [if_pos (by exact ⟨trivial, trivial, trivial, trivial, trivial, trivial⟩)]
  rw [val4_pad4 t.year hy, val2_pad2 t.month (by omega), val2_pad2 t.day (by omega),
    val2_pad2 t.hour (by omega), val2_pad2 t.minute (by omega), val2_pad2 t.second (by omega)]
  show (if 1 ≤ t.month ∧ t.month ≤ 12 ∧ 1 ≤ t.day ∧ t.day ≤ 31 ∧
      t.hour ≤ 23 ∧ t.minute ≤ 59 ∧ t.second ≤ 59 then
    some (⟨t.year, t.month, t.day, t.hour, t.minute, t.second, 0⟩ : CivilTime)
  else none) = some { t with nanos := 0 }
  rw [if_pos ⟨hm1, hm2, hd1, hd2, hh, hmin, hs⟩]

/-! ### The compile pipeline -/

/-- The executor type of a run config (`scheduler.ExecutorTask` /
`scheduler.ExecutorHook`). -/
inductive ExecType where
  | task
  | hook
deriving DecidableEq

/-- A job hook: name and config map. -/
structure SchedHook where
  name : String
  config : List (String × String)
deriving DecidableEq

/-- The job fields the input compiler reads. -/
structure SchedJob where
  name : String
  projectName : String
  namespaceName : String
  id : String
  destination : String
  taskConfig : List (String × String)
  hooks : List SchedHook
deriving DecidableEq

/-- The run config fields the input compiler reads. -/
structure RunCfg where
  executorName : String
  executorType : ExecType
deriving DecidableEq

/-- The window interval (`window.Interval`); `stop` stands for the Go
field `End`. -/
structure Interval where
  start : CivilTime
  stop : CivilTime
deriving DecidableEq

/-- The `ExecutorInput` wire contract. -/
structure ExecutorInput where
  configs : List (String × String)
  secrets : List (String × String)
  files : List (String × String)
deriving DecidableEq

/-- String-keyed map lookup (first binding wins). -/
def lookupStr : List (String × String) → String → Option String
  | [], _ => none
  | (k, v) :: rest, key => if key = k then some v else lookupStr rest key

/-- Modelled from the spec (4.E steps 6-7): the active config map — the
task's config when the executor type is `task`, the matching hook's
config when it is `hook`; a missing hook fails with a message containing
`hook:<executor name>`. -/
def activeConfig (job : SchedJob) (runCfg : RunCfg) :
    Except String (List (String × String)) :=
  match runCfg.executorType with
  | ExecType.task => .ok job.taskConfig
  | ExecType.hook =>
    match job.hooks.find? (fun h => h.name == runCfg.executorName) with
    | some h => .ok h.config
    | none => .error ("hook:" ++ runCfg.executorName ++ " not found in job")

/-- Modelled from the spec (4.E step 3): the system-defined variables
`DSTART`, `DEND`, `EXECUTION_TIME` (RFC3339) and `JOB_DESTINATION`. -/
def systemEnvVars (interval : Interval) (executedAt : CivilTime) (dest : String) :
    List (String × String) :=
  [("DSTART", renderRFC3339 interval.start),
   ("DEND", renderRFC3339 interval.stop),
   ("EXECUTION_TIME", renderRFC3339 executedAt),
   ("JOB_DESTINATION", dest)]

/-- Modelled from the spec (4.E): assemble the `ExecutorInput`: partition
the active config by the secret classification, compile each partition
independently with the map-form template compiler, and merge the
compiled plain config, the system variables and `JOB_LABELS` into
`configs`; the compiled secret partition becomes `secrets`, the compiled
assets become `files`.  The template evaluation context of 4.C is
abstracted into `eng`; the asset compilation of 4.D is abstracted into
the already compiled `files`. -/
def compileExecutorInput (eng : String → Except String String) (job : SchedJob)
    (runCfg : RunCfg) (interval : Interval) (executedAt : CivilTime)
    (files : List (String × String)) : Except String ExecutorInput :=
  match activeConfig job runCfg with
  | .error e => .error e
  | .ok conf =>
    match compileMap eng (splitConfigWithSecrets conf).1 with
    | .error e => .error e
    | .ok compiledConfs =>
      match compileMap eng (splitConfigWithSecrets conf).2 with
      | .error e => .error e
      | .ok compiledSecrets =>
        .ok ⟨compiledConfs ++ systemEnvVars interval executedAt job.destination ++
              [("JOB_LABELS",
                jobLabelsString job.projectName job.namespaceName job.name job.id)],
             compiledSecrets, files⟩

/-! ### Support lemmas for the compiler claims -/

theorem lookupStr_append (a b : List (String × String)) (k : String) :
    lookupStr (a ++ b) k = match lookupStr a k with
      | some v => some v
      | none => lookupStr b k := by
  induction a with
  | nil => simp [lookupStr]
  | cons kv rest ih =>
    cases kv with
    | mk k1 v1 =>
      by_cases h : k = k1
      · simp [lookupStr, h]
      · simp [lookupStr, h, ih]

theorem lookupStr_eq_none (l : List (String × String)) (k : String)
    (h : k ∉ l.map Prod.fst) : lookupStr l k = none := by
  induction l with
  | nil => rfl
  | cons kv rest ih =>
    cases kv with
    | mk k1 v1 =>
      rw [List.map_cons, List.mem_cons] at h
      push_neg at h
      show (if k = k1 then some v1 else lookupStr rest k) = none
      rw [if_neg h.1]
      exact ih h.2

theorem mem_keys_filter {p : String × String → Bool} {l : List (String × String)} {k : String}
    (h : k ∈ (l.filter p).map Prod.fst) : k ∈ l.map Prod.fst := by
  rw [List.mem_map] at h ⊢
  obtain ⟨kv, hkv, hk⟩ := h
  exact ⟨kv, List.mem_of_mem_filter hkv, hk⟩

/-- When the config keys are free of duplicates, the keys of the two
partition halves are disjoint. -/
theorem filter_keys_disjoint (conf : List (String × String)) (p : String × String → Bool)
    (hnodup : (conf.map Prod.fst).Nodup) (k : String)
    (h1 : k ∈ (conf.filter (fun kv => !(p kv))).map Prod.fst) :
    k ∉ (conf.filter p).map Prod.fst := by
  induction conf with
  | nil => simp at h1
  | cons kv rest ih =>
    rw [List.map_cons, List.nodup_cons] at hnodup
    obtain ⟨hk, hrest⟩ := hnodup
    by_cases hp : p kv
    · rw [List.filter_cons_of_neg (by simp [hp])] at h1
      rw [List.filter_cons_of_pos hp]
      rw [List.map_cons, List.mem_cons]
      rintro (hkkv | hcon)
      · exact hk (hkkv ▸ mem_keys_filter h1)
      · exact ih hrest h1 hcon
    · rw [List.filter_cons_of_pos (by simp [hp])] at h1
      rw [List.filter_cons_of_neg hp]
      rw [List.map_cons, List.mem_cons] at h1
      rcases h1 with hkkv | h1
      · intro hcon
        exact hk (hkkv ▸ mem_keys_filter hcon)
      · exact ih hrest h1

theorem compileMap_keys (eng : String → Except String String)
    (l res : List (String × String)) (h : compileMap eng l = .ok res) :
    res.map Prod.fst = l.map Prod.fst := by
  induction l generalizing res with
  | nil =>
    unfold compileMap at h
    injection h with h'
    subst h'
    rfl
  | cons kv rest ih =>
    obtain ⟨k, v⟩ := kv
    unfold compileMap at h
    rcases he : eng v with e | cv <;> rw [he] at h
    · cases h
    · rcases hr : compileMap eng rest with e | crest <;> rw [hr] at h
      · cases h
      · injection h with h'
        subst h'
        simp [ih crest hr]

theorem compileMap_error_of_mem (eng : String → Except String String)
    (m : List (String × String)) (k v e : String)
    (hm : (k, v) ∈ m) (he : eng v = .error e) :
    ∃ e2, compileMap eng m = .error e2 := by
  induction m with
  | nil => cases hm
  | cons kv rest ih =>
    obtain ⟨k1, v1⟩ := kv
    rcases List.mem_cons.mp hm with h1 | h1
    · injection h1 with hk hv
      subst hk hv
      refine ⟨e, ?_⟩
      unfold compileMap
      rw [he]
    · obtain ⟨e2, hrest⟩ := ih h1
      rcases heng : eng v1 with err | cv
      · exact ⟨err, by unfold compileMap; rw [heng]⟩
      · exact ⟨e2, by unfold compileMap; rw [heng, hrest]⟩

theorem allowedLabelChar_sanitiseValue (s : String) :
    ∀ c ∈ sanitiseValueChars s, allowedLabelChar c = true := by
  intro c hc
  unfold sanitiseValueChars at hc
  rw [List.mem_map] at hc
  obtain ⟨c0, _, hcc⟩ := hc
  subst hcc
  cases ha : allowedLabelChar c0 with
  | false => simp only [ha, Bool.false_eq_true, if_neg, if_false]; decide
  | true => simp [ha]

theorem length_sanitiseValueChars (s : String) :
    (sanitiseValueChars s).length = s.data.length := by
  simp [sanitiseValueChars]

/-! ### Claim theorems for the executor input compiler -/

/-- The job name of the compiler test's label sanitisation scenario. -/
def c3TestJobName : String :=
  "nameWith Invalid~Characters)(Which Are.even.LongerThan^63Charancters"

/-- Counterexample to C3 as stated: for the test's 68-character job name
the produced `job_name` value is the test-pinned
`__h-invalid-characters--which-are-even-longerthan-63charancters`,
which contains `_` — outside `[a-z0-9-]` — and differs from the claim's
lowercase-replace-truncate-to-63 construction (the code keeps the last
61 characters behind a `__` marker instead of truncating). -/
theorem c3_counterexample :
    sanitiseLabel c3TestJobName =
      "__h-invalid-characters--which-are-even-longerthan-63charancters" ∧
    (sanitiseLabelChars c3TestJobName).all allowedLabelChar = false ∧
    sanitiseLabelChars c3TestJobName ≠ claimSanitiseChars c3TestJobName := by
  refine ⟨by decide, by decide, by decide⟩

/-- C3 amended: the `job_name` label value inside `JOB_LABELS` is the
sanitised job name, and for every nonempty job name it matches
`^[a-z0-9_-]{1,63}$`: between 1 and 63 characters, each either in the
spec's `[a-z0-9-]` class or the `_` of the truncation marker. -/
theorem c3_sanitised_label_value (s p n i : String) (h : s.data ≠ []) :
    lookupStr (jobLabels p n s i) "job_name" = some (sanitiseLabel s) ∧
    1 ≤ (sanitiseLabel s).data.length ∧
    (sanitiseLabel s).data.length ≤ 63 ∧
    ∀ c ∈ (sanitiseLabel s).data, (allowedLabelChar c || c == '_') = true := by
  have hdata : (sanitiseLabel s).data = sanitiseLabelChars s := rfl
  have hv : (sanitiseValueChars s).length = s.data.length := length_sanitiseValueChars s
  have hpos : 0 < s.data.length := List.length_pos.mpr h
  refine ⟨rfl, ?_, ?_, ?_⟩
  · rw [hdata]
    unfold sanitiseLabelChars
    by_cases hlen : (sanitiseValueChars s).length > 63
    · rw [if_pos hlen]
      simp
    · rw [if_neg hlen]
      omega
  · rw [hdata]
    unfold sanitiseLabelChars
    by_cases hlen : (sanitiseValueChars s).length > 63
    · rw [if_pos hlen]
      simp only [List.length_cons, List.length_drop]
      omega
    · rw [if_neg hlen]
      omega
  · rw [hdata]
    unfold sanitiseLabelChars
    by_cases hlen : (sanitiseValueChars s).length > 63
    · rw [if_pos hlen]
      intro c hc
      rcases List.mem_cons.mp hc with hc0 | hc1
      · subst hc0; decide
      rcases List.mem_cons.mp hc1 with hc0 | hc2
      · subst hc0; decide
      · have hmem : c ∈ sanitiseValueChars s :=
          (List.drop_sublist _ _).subset hc2
        simp [allowedLabelChar_sanitiseValue s c hmem]
    · rw [if_neg hlen]
      intro c hc
      simp [allowedLabelChar_sanitiseValue s c hc]

/-- Witness for the amended C3 at the test's short job name `job1`. -/
theorem c3_sanitised_label_value_witness :
    lookupStr (jobLabels "proj1" "ns1" "job1" "id1") "job_name" =
      some (sanitiseLabel "job1") ∧
    1 ≤ (sanitiseLabel "job1").data.length ∧
    (sanitiseLabel "job1").data.length ≤ 63 ∧
    ∀ c ∈ (sanitiseLabel "job1").data, (allowedLabelChar c || c == '_') = true :=
  c3_sanitised_label_value "job1" "proj1" "ns1" "id1" (by decide)

/-- The hook config of the compiler test's hook scenario. -/
def c4HookConfig : List (String × String) :=
  [("hook_secret", "a.secret.val"), ("hook_some_config", "val")]

def c4Job : SchedJob :=
  ⟨"job1", "proj1", "ns1", "id1", "dest",
   [("secret.config", "a.secret.val"), ("some.config", "val")],
   [⟨"predator", c4HookConfig⟩]⟩

def c4Interval : Interval := ⟨⟨2024, 1, 1, 0, 0, 0, 0⟩, ⟨2024, 1, 2, 0, 0, 0, 0⟩⟩

def c4Time : CivilTime := ⟨2024, 1, 2, 3, 4, 5, 0⟩

/-- The compiled executor input of the test's task scenario with an
identity template evaluator. -/
def c4TaskOut : ExecutorInput :=
  ⟨[("some.config", "val")] ++ systemEnvVars c4Interval c4Time "dest" ++
    [("JOB_LABELS", jobLabelsString "proj1" "ns1" "job1" "id1")],
   [("secret.config", "a.secret.val")], []⟩

/-- Counterexample to C4 as stated: the test's hook config classifies
`hook_secret` — whose key does not begin with `secret`, but whose value
`a.secret.val` references the secret context — as a secret.  Under the
claim's key-prefix rule the secret partition of that config would be
empty, yet the compile pinned by the test puts `hook_secret` into
`ExecutorInput.secrets`. -/
theorem c4_counterexample :
    activeConfig c4Job ⟨"predator", ExecType.hook⟩ = .ok c4HookConfig ∧
    keyStartsWithSecret "hook_secret" = false ∧
    (splitConfigByKeyName c4HookConfig).2 = [] ∧
    (splitConfigWithSecrets c4HookConfig).2 = [("hook_secret", "a.secret.val")] ∧
    (compileExecutorInput (fun s => .ok s) c4Job ⟨"predator", ExecType.hook⟩
        c4Interval c4Time []).toOption.map (fun o => o.secrets) =
      some [("hook_secret", "a.secret.val")] := by
  refine ⟨rfl, by decide, by decide, by decide, by decide⟩

/-- C4 amended: the active config map (the task's config for a task
executor, the matching hook's config for a hook executor) is partitioned
into two disjoint maps — an entry whose template value references the
secret context is classified as a secret, the rest as plain config —
each half is compiled independently, the compiled secret half becomes
`ExecutorInput.secrets`, and when the config keys are duplicate-free and
the secret-classified keys avoid the reserved system keys, the key sets
of `ExecutorInput.configs` and `ExecutorInput.secrets` are disjoint. -/
theorem c4_config_secret_partition (eng : String → Except String String)
    (job : SchedJob) (runCfg : RunCfg) (interval : Interval) (executedAt : CivilTime)
    (files : List (String × String)) (out : ExecutorInput) (conf : List (String × String))
    (hconf : activeConfig job runCfg = .ok conf)
    (hnodup : (conf.map Prod.fst).Nodup)
    (hres : ∀ kv ∈ (splitConfigWithSecrets conf).2,
      kv.1 ≠ "DSTART" ∧ kv.1 ≠ "DEND" ∧ kv.1 ≠ "EXECUTION_TIME" ∧
      kv.1 ≠ "JOB_DESTINATION" ∧ kv.1 ≠ "JOB_LABELS")
    (hok : compileExecutorInput eng job runCfg interval executedAt files = .ok out) :
    (∀ kv ∈ conf,
      (kv ∈ (splitConfigWithSecrets conf).1 ↔ hasSecretRef kv.2 = false) ∧
      (kv ∈ (splitConfigWithSecrets conf).2 ↔ hasSecretRef kv.2 = true)) ∧
    (∀ kv, ¬(kv ∈ (splitConfigWithSecrets conf).1 ∧ kv ∈ (splitConfigWithSecrets conf).2)) ∧
    compileMap eng (splitConfigWithSecrets conf).2 = .ok out.secrets ∧
    (∀ k, k ∈ out.configs.map Prod.fst → k ∉ out.secrets.map Prod.fst) := by
  unfold compileExecutorInput at hok
  simp only [hconf] at hok
  rcases h1 : compileMap eng (splitConfigWithSecrets conf).1 with e1 | c1 <;> rw [h1] at hok
  · exact Except.noConfusion hok
  rcases h2 : compileMap eng (splitConfigWithSecrets conf).2 with e2 | c2 <;> rw [h2] at hok
  · exact Except.noConfusion hok
  cases hok
  refine ⟨?_, ?_, ?_, ?_⟩
  · intro kv hkv
    unfold splitConfigWithSecrets
    constructor
    · rw [List.mem_filter]
      cases hs : hasSecretRef kv.2 <;> simp [hkv, hs]
    · rw [List.mem_filter]
      cases hs : hasSecretRef kv.2 <;> simp [hkv, hs]
  · rintro kv ⟨hin1, hin2⟩
    unfold splitConfigWithSecrets at hin1 hin2
    rw [List.mem_filter] at hin1 hin2
    rw [hin2.2] at hin1
    exact absurd hin1.2 (by decide)
  · rfl
  · intro k hk
    intro hcon
    have hcon2 : k ∈ c2.map Prod.fst := hcon
    have hsecretkeys : k ∈ ((splitConfigWithSecrets conf).2).map Prod.fst := by
      rw [compileMap_keys eng _ c2 h2] at hcon2
      exact hcon2
    have hk2 : k ∈ (c1 ++ systemEnvVars interval executedAt job.destination ++
        [("JOB_LABELS",
          jobLabelsString job.projectName job.namespaceName job.name job.id)]).map
        Prod.fst := hk
    rw [List.map_append, List.map_append, List.mem_append, List.mem_append] at hk2
    rcases hk2 with (hk | hk) | hk
    · rw [compileMap_keys eng _ c1 h1] at hk
      exact filter_keys_disjoint conf (fun kv => hasSecretRef kv.2) hnodup k hk hsecretkeys
    · rw [List.mem_map] at hsecretkeys
      obtain ⟨kv, hkvmem, hkvk⟩ := hsecretkeys
      obtain ⟨hA, hB, hC, hD, hE⟩ := hres kv hkvmem
      rw [hkvk] at hA hB hC hD
      have hk4 : k = "DSTART" ∨ k = "DEND" ∨ k = "EXECUTION_TIME" ∨
          k = "JOB_DESTINATION" := by
        simpa [systemEnvVars] using hk
      rcases hk4 with hk4 | hk4 | hk4 | hk4
      · exact hA hk4
      · exact hB hk4
      · exact hC hk4
      · exact hD hk4
    · rw [List.mem_map] at hsecretkeys
      obtain ⟨kv, hkvmem, hkvk⟩ := hsecretkeys
      obtain ⟨hA, hB, hC, hD, hE⟩ := hres kv hkvmem
      rw [hkvk] at hE
      have hk5 : k = "JOB_LABELS" := by simpa using hk
      exact hE hk5

/-- Witness for the amended C4 at the test's task scenario: the compiled
secret partition is exactly the `secret.config` entry. -/
theorem c4_config_secret_partition_witness :
    compileMap (fun s => .ok s)
      (splitConfigWithSecrets
        [("secret.config", "a.secret.val"), ("some.config", "val")]).2 =
      .ok c4TaskOut.secrets :=
  (c4_config_secret_partition (fun s => .ok s) c4Job ⟨"bq2bq", ExecType.task⟩
    c4Interval c4Time [] c4TaskOut
    [("secret.config", "a.secret.val"), ("some.config", "val")]
    rfl (by decide) (by decide) rfl).2.2.1

/-- C8: in the `compileConfig` path (plugin service), a per-entry
template failure is tolerated — the entry keeps its original template
text as its value, the key set is unchanged and no error is returned —
while the map-form compilation used for the plain-config and secret
partitions of the executor input compiler surfaces any entry failure:
the whole compile fails. -/
theorem c8_config_error_tolerance :
    (∀ (eng : String → Except String String) (configs : List (String × String))
        (k v e : String), (k, v) ∈ configs → eng v = .error e →
      (k, v) ∈ compileConfig eng configs) ∧
    (∀ (eng : String → Except String String) (configs : List (String × String)),
      (compileConfig eng configs).map Prod.fst = configs.map Prod.fst) ∧
    (∀ (eng : String → Except String String) (m : List (String × String)) (k v e : String),
      (k, v) ∈ m → eng v = .error e → ∃ e2, compileMap eng m = .error e2) ∧
    (∀ (eng : String → Except String String) (job : SchedJob) (runCfg : RunCfg)
        (interval : Interval) (executedAt : CivilTime) (files : List (String × String))
        (conf : List (String × String)) (k v e : String),
      activeConfig job runCfg = .ok conf → (k, v) ∈ conf → eng v = .error e →
      ∃ e2, compileExecutorInput eng job runCfg interval executedAt files = .error e2) := by
  refine ⟨?_, ?_, ?_, ?_⟩
  · intro eng configs k v e hm he
    unfold compileConfig
    rw [List.mem_map]
    exact ⟨(k, v), hm, by simp [he]⟩
  · intro eng configs
    unfold compileConfig
    rw [List.map_map]
    apply List.map_congr_left
    intro kv _
    rcases he : eng kv.2 with e | cv <;> simp [Function.comp, he]
  · intro eng m k v e hm he
    exact compileMap_error_of_mem eng m k v e hm he
  · intro eng job runCfg interval executedAt files conf k v e hconf hm he
    by_cases hsec : hasSecretRef v = true
    · have hmem2 : (k, v) ∈ (splitConfigWithSecrets conf).2 := by
        unfold splitConfigWithSecrets
        rw [List.mem_filter]
        exact ⟨hm, hsec⟩
      obtain ⟨e2, he2⟩ := compileMap_error_of_mem eng _ k v e hmem2 he
      rcases hpl : compileMap eng (splitConfigWithSecrets conf).1 with e1 | c1
      · exact ⟨e1, by unfold compileExecutorInput; simp only [hconf]; rw [hpl]⟩
      · exact ⟨e2, by unfold compileExecutorInput; simp only [hconf]; rw [hpl, he2]⟩
    · have hmem1 : (k, v) ∈ (splitConfigWithSecrets conf).1 := by
        unfold splitConfigWithSecrets
        rw [List.mem_filter]
        refine ⟨hm, ?_⟩
        simp [hsec]
      obtain ⟨e1, he1⟩ := compileMap_error_of_mem eng _ k v e hmem1 he
      exact ⟨e1, by unfold compileExecutorInput; simp only [hconf]; rw [he1]⟩

/-- The failing template evaluator of the C8 witness. -/
def c8Eng : String → Except String String :=
  fun s => if s = "bad" then .error "boom" else .ok s

/-- Witness for C8 at a concrete input: `compileConfig` keeps the failing
entry with its original template text, while `compileMap` fails on it. -/
theorem c8_config_error_tolerance_witness :
    ("a", "bad") ∈ compileConfig c8Eng [("a", "bad")] ∧
    (∃ e2, compileMap c8Eng [("a", "bad")] = .error e2) :=
  ⟨c8_config_error_tolerance.1 c8Eng [("a", "bad")] "a" "bad" "boom"
      (List.mem_cons_self _ _) rfl,
   c8_config_error_tolerance.2.2.1 c8Eng [("a", "bad")] "a" "bad" "boom"
      (List.mem_cons_self _ _) rfl⟩

def c9Time : CivilTime := ⟨2024, 1, 2, 3, 4, 5, 6⟩

def c9Job : SchedJob := ⟨"job1", "proj1", "ns1", "id1", "dest", [], []⟩

def c9Interval : Interval := ⟨⟨2024, 1, 1, 0, 0, 0, 0⟩, ⟨2024, 1, 2, 0, 0, 0, 0⟩⟩

/-- The compiled executor input of the C9 scenario. -/
def c9Out : ExecutorInput :=
  ⟨systemEnvVars c9Interval c9Time "dest" ++
    [("JOB_LABELS", jobLabelsString "proj1" "ns1" "job1" "id1")], [], []⟩

/-- Counterexample to C9 as stated: for an `executedAt` with a nonzero
sub-second component the stored `EXECUTION_TIME` value — an RFC3339
timestamp, which carries no fractional seconds — parses back to the
argument truncated to whole seconds, not to the argument itself. -/
theorem c9_counterexample :
    compileExecutorInput (fun s => .ok s) c9Job ⟨"bq2bq", ExecType.task⟩
      c9Interval c9Time [] = .ok c9Out ∧
    lookupStr c9Out.configs "EXECUTION_TIME" = some (renderRFC3339 c9Time) ∧
    parseRFC3339 (renderRFC3339 c9Time) = some ⟨2024, 1, 2, 3, 4, 5, 0⟩ ∧
    parseRFC3339 (renderRFC3339 c9Time) ≠ some c9Time := by
  refine ⟨rfl, by decide, by decide, by decide⟩

/-- C9 amended: after a successful compile whose active config does not
shadow the `EXECUTION_TIME` key, the value stored in `configs` under
`EXECUTION_TIME` is the RFC3339 rendering of `executedAt`, and parsing
it back yields exactly `executedAt` truncated to whole seconds. -/
theorem c9_execution_time_roundtrip (eng : String → Except String String)
    (job : SchedJob) (runCfg : RunCfg) (interval : Interval) (executedAt : CivilTime)
    (files : List (String × String)) (out : ExecutorInput) (conf : List (String × String))
    (hconf : activeConfig job runCfg = .ok conf)
    (hkey : "EXECUTION_TIME" ∉ conf.map Prod.fst)
    (hok : compileExecutorInput eng job runCfg interval executedAt files = .ok out)
    (hvalid : executedAt.Valid) :
    lookupStr out.configs "EXECUTION_TIME" = some (renderRFC3339 executedAt) ∧
    (lookupStr out.configs "EXECUTION_TIME").bind parseRFC3339 =
      some { executedAt with nanos := 0 } := by
  unfold compileExecutorInput at hok
  simp only [hconf] at hok
  rcases h1 : compileMap eng (splitConfigWithSecrets conf).1 with e1 | c1 <;> rw [h1] at hok
  · exact Except.noConfusion hok
  rcases h2 : compileMap eng (splitConfigWithSecrets conf).2 with e2 | c2 <;> rw [h2] at hok
  · exact Except.noConfusion hok
  cases hok
  have hc1keys : "EXECUTION_TIME" ∉ c1.map Prod.fst := by
    rw [compileMap_keys eng _ c1 h1]
    intro hc
    exact hkey (mem_keys_filter hc)
  have hnone : lookupStr c1 "EXECUTION_TIME" = none := lookupStr_eq_none _ _ hc1keys
  have hfound : lookupStr
      (c1 ++ systemEnvVars interval executedAt job.destination ++
        [("JOB_LABELS", jobLabelsString job.projectName job.namespaceName job.name job.id)])
      "EXECUTION_TIME" = some (renderRFC3339 executedAt) := by
    rw [List.append_assoc, lookupStr_append, hnone]
    rfl
  refine ⟨hfound, ?_⟩
  rw [hfound]
  show parseRFC3339 (renderRFC3339 executedAt) = _
  exact parse_render_rfc3339 executedAt hvalid

/-- Witness for the amended C9 at a concrete whole-second input. -/
theorem c9_execution_time_roundtrip_witness :
    lookupStr (⟨systemEnvVars c9Interval ⟨2024, 1, 2, 3, 4, 5, 0⟩ "dest" ++
        [("JOB_LABELS", jobLabelsString "proj1" "ns1" "job1" "id1")], [], []⟩ :
        ExecutorInput).configs "EXECUTION_TIME" =
      some (renderRFC3339 ⟨2024, 1, 2, 3, 4, 5, 0⟩) ∧
    (lookupStr (⟨systemEnvVars c9Interval ⟨2024, 1, 2, 3, 4, 5, 0⟩ "dest" ++
        [("JOB_LABELS", jobLabelsString "proj1" "ns1" "job1" "id1")], [], []⟩ :
        ExecutorInput).configs "EXECUTION_TIME").bind parseRFC3339 =
      some { year := 2024, month := 1, day := 2, hour := 3, minute := 4, second := 5,
             nanos := 0 } :=
  c9_execution_time_roundtrip (fun s => .ok s) c9Job ⟨"bq2bq", ExecType.task⟩
    c9Interval ⟨2024, 1, 2, 3, 4, 5, 0⟩ [] _ [] rfl (by decide) rfl
    (by unfold CivilTime.Valid; decide)

end Optimus
